import Mathlib

/-!
Verification of the BLS data-collection pipeline (`src/collect_data.py`).

The development shallowly embeds the data model and the operations of
`collect_data.py`:

* the raw API payload (`RawSeries`, `RawItem`) and the fixed series map;
* `process_data`, which turns raw observations into a date-indexed table
  (dictionary building, period-code handling, value parsing, date parsing,
  sorting);
* the merge performed by `update_data_and_save`
  (`pd.concat` + `drop_duplicates(subset=['Date'], keep='last')` + sort);
* the persisted-file state machine of `update_data_and_save`
  (missing/empty file, corrupt header, valid file, failed fetch), with the
  HTTP fetch modelled as an oracle argument;
* `get_bls_data`'s outcome classification over a modelled HTTP response.

Machine reals: observation values are parsed decimals; they are represented
exactly as rationals (built with `mkRat`), which matches the Python floats for
the short decimal strings this data contains.  Python `int`/`float` parsing is
modelled for the forms arising here (optional sign, digits, optional decimal
point); exotic forms (exponents, `inf`, `nan`, underscores, surrounding
whitespace) are not modelled and never arise in the claims.
-/

namespace CollectData

instance {ε α : Type} [DecidableEq ε] [DecidableEq α] : DecidableEq (Except ε α) := fun a b =>
  match a, b with
  | .ok x, .ok y => if h : x = y then .isTrue (by rw [h]) else .isFalse (by simp [h])
  | .error x, .error y => if h : x = y then .isTrue (by rw [h]) else .isFalse (by simp [h])
  | .ok _, .error _ => .isFalse (by simp)
  | .error _, .ok _ => .isFalse (by simp)

/-- One observation of the raw BLS payload: `{year, period, value}`,
all strings, exactly as in the JSON. -/
structure RawItem where
  year : String
  period : String
  value : String
deriving DecidableEq, Repr

/-- One series of the raw BLS payload: `{seriesID, data: [...]}`. -/
structure RawSeries where
  seriesID : String
  data : List RawItem
deriving DecidableEq, Repr

/-- `SERIES_MAP` from `collect_data.py` (insertion-ordered dict). -/
def SERIES_MAP : List (String × String) :=
  [("LNS14000000", "Unemployment_Rate_SA"),
   ("CES0000000001", "Total_Nonfarm_Employment_SA"),
   ("CES0500000003", "Avg_Weekly_Hours_Private_SA"),
   ("PRS85006092", "Output_Per_Hour_NF"),
   ("CUUR0000SA0L1E", "CPI_U_Ex_Food_Energy_U"),
   ("EIUIR", "Imports_All_Commodities_U"),
   ("EIUIQ", "Exports_All_Commodities_U")]

/-- Association-list lookup (first match), i.e. Python `dict.__getitem__`
on insertion-ordered dicts whose keys are unique. -/
def alookup {α : Type} : List (String × α) → String → Option α
  | [], _ => none
  | (k, v) :: rest, key => if k = key then some v else alookup rest key

/-- `SERIES_MAP.get(series_id, series_id)` (line 68). -/
def seriesColumn (sid : String) : String := (alookup SERIES_MAP sid).getD sid

/-- `quarter_map = {'Q01': 3, 'Q02': 6, 'Q03': 9, 'Q04': 12}` (line 81). -/
def quarter_map : List (String × Int) := [("Q01", 3), ("Q02", 6), ("Q03", 9), ("Q04", 12)]

/-- Digit characters to the number they denote (most significant first). -/
def digitsVal (cs : List Char) : Nat :=
  cs.foldl (fun a c => a * 10 + (c.toNat - 48)) 0

/-- Python `int(s)` for the forms arising here: an optional `-` sign followed
by one or more decimal digits (leading zeros allowed).  `none` models the
`ValueError` that `int` raises on anything else. -/
def pyInt? (s : String) : Option Int :=
  match s.data with
  | [] => none
  | '-' :: rest =>
      if rest ≠ [] ∧ rest.all Char.isDigit then some (-(digitsVal rest : Int)) else none
  | l => if l.all Char.isDigit then some (digitsVal l : Int) else none

/-- Python `float(s)` for the decimal forms arising here: optional sign,
optional integer part, optional `.` and fraction part, at least one digit.
`none` models the `ValueError` on a non-numeric string. The value is exact:
these short decimals are also exactly the Python floats' printed values. -/
def pyFloat? (s : String) : Option Rat :=
  let core : List Char → Option Rat := fun cs =>
    let ip := cs.takeWhile Char.isDigit
    match cs.dropWhile Char.isDigit with
    | [] => if ip = [] then none else some (mkRat (digitsVal ip) 1)
    | '.' :: fp =>
        if fp.all Char.isDigit ∧ ¬(ip = [] ∧ fp = []) then
          some (mkRat (digitsVal ip * 10 ^ fp.length + digitsVal fp) (10 ^ fp.length))
        else none
    | _ => none
  match s.data with
  | '-' :: rest => (core rest).map (fun q => -q)
  | '+' :: rest => core rest
  | l => core l

/-- `f"{n:02d}"` for the `int` months produced by the period-code handling. -/
def pad2 (n : Int) : String :=
  if 0 ≤ n ∧ n < 10 then "0" ++ toString n else toString n

/-- Lines 75–84 of `process_data`: derive the `date_str` of one observation.
`.error` models the uncaught `ValueError` from `int(period[1:])`;
`.ok none` means the observation yields no date and is skipped. -/
def dateStrOfItem (item : RawItem) : Except String (Option String) :=
  if item.period.data.head? = some 'M' then
    match pyInt? (String.mk item.period.data.tail) with
    | none => .error "ValueError: invalid int literal in period"
    | some m => .ok (some (item.year ++ "-" ++ pad2 m ++ "-01"))
  else if item.period.data.head? = some 'Q' then
    .ok ((alookup quarter_map item.period).map
      (fun m => item.year ++ "-" ++ pad2 m ++ "-01"))
  else .ok none

/-- One row of `processed_data`: column name ↦ parsed value (`none` = Python
`None`, which pandas stores as NaN). Insertion-ordered, unique keys. -/
abbrev Row := List (String × Option Rat)

/-- `processed_data`: date string ↦ row. Insertion-ordered, unique keys. -/
abbrev PDict := List (String × Row)

/-- Python dict assignment `d[k] = v`: replace in place if the key is
present, append otherwise. -/
def updA {α : Type} (k : String) (v : α) : List (String × α) → List (String × α)
  | [] => [(k, v)]
  | (k', v') :: rest => if k' = k then (k, v) :: rest else (k', v') :: updA k v rest

/-- Lines 75–93 of `process_data`: the effect of one observation on
`processed_data`, given the column name of its series. -/
def procItem (column : String) (pd : PDict) (item : RawItem) : Except String PDict :=
  match dateStrOfItem item with
  | .error e => .error e
  | .ok none => .ok pd
  | .ok (some ds) =>
      .ok (updA ds (updA column (pyFloat? item.value) ((alookup pd ds).getD [])) pd)

/-- Inner loop of `process_data` over one series. -/
def procSeries (pd : PDict) (s : RawSeries) : Except String PDict :=
  s.data.foldlM (procItem (seriesColumn s.seriesID)) pd

/-- Outer loop of `process_data`: build `processed_data`. -/
def buildDict (rs : List RawSeries) : Except String PDict :=
  rs.foldlM procSeries []

/-- A calendar date (the `datetime64` values of the `Date` column). -/
structure Date where
  y : Nat
  m : Nat
  d : Nat
deriving DecidableEq, Repr

/-- Ascending date order used by `sort_values(by='Date')`. -/
def dateLe (a b : Date) : Bool :=
  decide (a.y < b.y ∨ (a.y = b.y ∧ (a.m < b.m ∨ (a.m = b.m ∧ a.d ≤ b.d))))

/-- `(c1 c2)` as a two-digit number. -/
def digit2 (c1 c2 : Char) : Nat := (c1.toNat - 48) * 10 + (c2.toNat - 48)

/-- `pd.to_datetime` on the ISO strings this program produces and persists:
`YYYY-MM-DD` with a four-digit year, two-digit month `01..12` and two-digit
day.  `none` models the raised parse error.  (pandas would also accept some
non-zero-padded variants that this program never generates; day validity is
checked only as `01..31` since the program only ever generates day `01`.) -/
def parseDate (s : String) : Option Date :=
  match s.data with
  | [y1, y2, y3, y4, h1, m1, m2, h2, d1, d2] =>
      if y1.isDigit ∧ y2.isDigit ∧ y3.isDigit ∧ y4.isDigit ∧ h1 = '-' ∧
         m1.isDigit ∧ m2.isDigit ∧ h2 = '-' ∧ d1.isDigit ∧ d2.isDigit then
        if 1 ≤ digit2 m1 m2 ∧ digit2 m1 m2 ≤ 12 ∧ 1 ≤ digit2 d1 d2 ∧ digit2 d1 d2 ≤ 31 then
          some ⟨digit2 y1 y2 * 100 + digit2 y3 y4, digit2 m1 m2, digit2 d1 d2⟩
        else none
      else none
  | _ => none

/-- The date-indexed table: the `Date`-sorted DataFrame that is persisted.
`cols` are the non-`Date` column names in DataFrame order. -/
structure Table where
  cols : List String
  rows : List (Date × Row)
deriving DecidableEq, Repr

/-- Column order of `pd.DataFrame.from_dict(processed_data, orient='index')`:
union of the row dicts' keys in order of first appearance. -/
def dictCols (pd : PDict) : List String :=
  pd.foldl (fun acc kv => acc ++ (kv.2.map Prod.fst).filter (fun c => ¬ acc.contains c)) []

/-- Row comparison used by `sort_values(by='Date')`. -/
def rowLe (a b : Date × Row) : Prop := dateLe a.1 b.1 = true

instance : DecidableRel rowLe := fun a b => by unfold rowLe; infer_instance

/-- `sort_values(by='Date')`: any correct ascending sort; the dates being
compared are pairwise distinct wherever this is used, so the (unstable)
quicksort of pandas and this insertion sort agree. -/
def sortRows (l : List (Date × Row)) : List (Date × Row) :=
  List.insertionSort rowLe l

/-- `df['Date'] = pd.to_datetime(df['Date'])` (line 98), one entry at a
time: parse the dictionary key into a date, failing on unparseable keys. -/
def parseEntry (kv : String × Row) : Except String (Date × Row) :=
  match parseDate kv.1 with
  | some d => .ok (d, kv.2)
  | none => .error ("to_datetime: could not parse " ++ kv.1)

/-- `process_data` (lines 63–101): raw series results to the sorted
date-indexed table.  `.error` models the uncaught exceptions
(`int(period[1:])` failures, `pd.to_datetime` failures). -/
def process_data (rs : List RawSeries) : Except String Table :=
  match buildDict rs with
  | .error e => .error e
  | .ok pd =>
      match pd.mapM parseEntry with
      | .error e => (.error e : Except String Table)
      | .ok rows => .ok { cols := dictCols pd, rows := sortRows rows }

/-- Reading one cell of a row: `none` is pandas NaN, whether the cell was
stored as `None` or the column is absent from the row. -/
def cellVal (r : Row) (c : String) : Option Rat := (alookup r c).getD none

/-- The (unique, once deduplicated) row of a given date; on duplicate dates
the last row, matching `drop_duplicates(keep='last')`. -/
def rowFor (rows : List (Date × Row)) (d : Date) : Option Row :=
  ((rows.filter (fun r => decide (r.1 = d))).getLast?).map Prod.snd

/-- Reading one cell of the table by date and column. -/
def Table.cell (t : Table) (d : Date) (c : String) : Option Rat :=
  match rowFor t.rows d with
  | some r => cellVal r c
  | none => none

/-- Whether some row carries the given date. -/
def hasDate (rows : List (Date × Row)) (d : Date) : Bool :=
  rows.any (fun r => decide (r.1 = d))

/-- `drop_duplicates(subset=['Date'], keep='last')`: keep a row iff no later
row has the same date (the kept row stays at its original position). -/
def dropDupKeepLast : List (Date × Row) → List (Date × Row)
  | [] => []
  | r :: rest =>
      if hasDate rest r.1 then dropDupKeepLast rest else r :: dropDupKeepLast rest

/-- Line 173–174 of `update_data_and_save`:
`pd.concat([df_existing, df_new]).drop_duplicates(subset=['Date'],
keep='last')` followed by `sort_values(by='Date').reset_index(drop=True)`.
`concat` aligns columns on their union (first frame's columns first),
filling NaN — which cell reads via `cellVal` model by failed lookup. -/
def mergeTables (told tnew : Table) : Table :=
  { cols := told.cols ++ tnew.cols.filter (fun c => ¬ told.cols.contains c),
    rows := sortRows (dropDupKeepLast (told.rows ++ tnew.rows)) }

/-! ## Persisted file, CSV round-trip, fetch oracle, and the update runs -/

/-- `os.path.exists` / `os.path.getsize == 0` / actual CSV content. -/
inductive PFile
  | absent
  | empty
  | csv (header : List String) (rows : List (List String))
deriving DecidableEq, Repr

/-- Outcome classification of `pd.read_csv(..., parse_dates=['Date'])`:
the `ValueError` whose text contains `Missing column provided to
'parse_dates'` (no `Date` in the header) is distinguished, because
`update_data_and_save` branches on that text; every other load failure is
`other` and is re-raised. -/
inductive LoadErr
  | missingDate
  | other (msg : String)
deriving DecidableEq, Repr

/-- `pd.read_csv(DATA_FILE_PATH, parse_dates=['Date'])` (line 142) on a
non-empty CSV: requires a `Date` column, parses its cells as dates, and
parses every other cell as a float (empty/non-numeric cells read as NaN,
i.e. `none`).  Row order is the file order; nothing is sorted here. -/
def loadCsv (header : List String) (rows : List (List String)) : Except LoadErr Table :=
  match header.indexOf? "Date" with
  | none => .error .missingDate
  | some di =>
      match rows.mapM (fun r =>
          match r.get? di with
          | none => Except.error (LoadErr.other "tokenizer error: short row")
          | some dc =>
              match parseDate dc with
              | none => Except.error (LoadErr.other ("could not parse date " ++ dc))
              | some d =>
                  let row : Row := header.enum.filterMap (fun (jc : Nat × String) =>
                      if jc.1 = di then none
                      else some (jc.2, (r.get? jc.1).bind pyFloat?))
                  Except.ok (d, row)) with
      | .error e => .error e
      | .ok prows => .ok
          { cols := header.enum.filterMap (fun (jc : Nat × String) => if jc.1 = di then none else some jc.2),
            rows := prows }

/-- Four-digit rendering of the year, as `to_csv` writes midnight
timestamps (`YYYY-MM-DD`). -/
def pad4 (n : Nat) : String :=
  if n < 10 then "000" ++ toString n
  else if n < 100 then "00" ++ toString n
  else if n < 1000 then "0" ++ toString n
  else toString n

/-- `to_csv` rendering of a `Date` cell. -/
def renderDate (d : Date) : String :=
  pad4 d.y ++ "-" ++ pad2 (d.m : Int) ++ "-" ++ pad2 (d.d : Int)

/-- Decimal digits of the fractional part `r/den` (fuel-bounded; exact for
the decimal fractions produced by `pyFloat?`). -/
def fracDigits : Nat → Nat → Nat → List Char
  | 0, _, _ => []
  | _ + 1, 0, _ => []
  | fuel + 1, r, den => Char.ofNat (48 + r * 10 / den) :: fracDigits fuel (r * 10 % den) den

/-- `to_csv` rendering of a float cell, exact on the decimal values produced
by `pyFloat?` (pandas prints those floats with these same shortest digits). -/
def renderRat (q : Rat) : String :=
  let sign := if q.num < 0 then "-" else ""
  let n := q.num.natAbs
  let frac := fracDigits 40 (n % q.den) q.den
  sign ++ toString (n / q.den) ++ "." ++ (if frac = [] then "0" else String.mk frac)

/-- `df.to_csv(DATA_FILE_PATH, index=False)`: header `Date,<cols>`, one line
per row, NaN cells written as the empty field. -/
def writeTable (t : Table) : PFile :=
  .csv ("Date" :: t.cols)
    (t.rows.map (fun r => renderDate r.1 ::
      t.cols.map (fun c =>
        match cellVal r.2 c with
        | some q => renderRat q
        | none => "")))

/-- The network, as an oracle: `get_bls_data(series_ids, start, end)`
returns `none` on any failure and the raw series list on success.  The
series-id list is the fixed `SERIES_MAP` key list on every call, so the
oracle is indexed only by the year window. -/
abbrev Fetch := Nat → Nat → Option (List RawSeries)

/-- `FULL_HISTORY_YEARS = 5` (line 26). -/
def FULL_HISTORY_YEARS : Nat := 5

/-- `UPDATE_WINDOW_YEARS = 3` (line 27). -/
def UPDATE_WINDOW_YEARS : Nat := 3

/-- A run's result: the resulting persisted-file state together with the
list of `(startyear, endyear)` windows fetched, in call order; `.error`
models an uncaught exception ending the run. -/
abbrev RunResult := Except String (PFile × List (Nat × Nat))

/-- `initial_data_collection` (lines 104–122) as invoked from
`update_data_and_save`: fetch `[year − FULL_HISTORY_YEARS, year]`; on fetch
failure the file is left as it is (the function just returns `False`); on
success the processed table is written.  (`START_YEAR`/`END_YEAR` are
computed from the same current year as the run.) -/
def initial_data_collection (fetch : Fetch) (year : Nat) (fs : PFile) : RunResult :=
  match fetch (year - FULL_HISTORY_YEARS) year with
  | none => .ok (fs, [(year - FULL_HISTORY_YEARS, year)])
  | some sd =>
      match process_data sd with
      | .error e => .error e
      | .ok t => .ok (writeTable t, [(year - FULL_HISTORY_YEARS, year)])

/-- `update_data_and_save` (lines 125–183).  The corrupt-header branch
deletes the file (`os.remove`) and calls itself recursively; that call
immediately takes the missing-file branch, so it is inlined here as
`initial_data_collection` on an absent file. -/
def update_data_and_save (fetch : Fetch) (year : Nat) (fs : PFile) : RunResult :=
  match fs with
  | .absent => initial_data_collection fetch year .absent
  | .empty => initial_data_collection fetch year .empty
  | .csv header rows =>
      match loadCsv header rows with
      | .error .missingDate => initial_data_collection fetch year .absent
      | .error (.other e) => .error e
      | .ok dfExisting =>
          match fetch (year - UPDATE_WINDOW_YEARS) year with
          | none => .ok (.csv header rows, [(year - UPDATE_WINDOW_YEARS, year)])
          | some sd =>
              match process_data sd with
              | .error e => .error e
              | .ok dfNew =>
                  .ok (writeTable (mergeTables dfExisting dfNew),
                       [(year - UPDATE_WINDOW_YEARS, year)])

/-! ## The Collector (`get_bls_data`, lines 35–60) -/

/-- The decoded JSON body of the API response, as far as `get_bls_data`
inspects it: the `status` and `message` fields (absent allowed, matching
`json_data.get`) and `Results.series`. -/
structure ApiBody where
  status : Option String
  message : Option String
  results : List RawSeries
deriving DecidableEq, Repr

/-- The outcome of `requests.post`: a transport error (any
`requests.exceptions.RequestException`) or an HTTP response with a status
code and decoded body. -/
inductive HttpOutcome
  | transportError (msg : String)
  | response (code : Nat) (body : ApiBody)
deriving DecidableEq, Repr

/-- Python `str.strip()`. -/
def pyStrip (s : String) : String :=
  String.mk (((s.data.dropWhile Char.isWhitespace).reverse.dropWhile Char.isWhitespace).reverse)

/-- `get_bls_data` (lines 48–60): `response.raise_for_status()` raises for
status codes 400–599 and is caught as a `RequestException`;
`json_data.get('status', '').strip() == 'REQUEST_SUCCEEDED'` guards the
success return of `json_data['Results']['series']`. -/
def get_bls_data (r : HttpOutcome) : Option (List RawSeries) :=
  match r with
  | .transportError _ => none
  | .response code body =>
      if 400 ≤ code ∧ code < 600 then none
      else if pyStrip (body.status.getD "") = "REQUEST_SUCCEEDED" then some body.results
      else none

/-- The claim's failure condition, in the spec's words: transport error,
non-success HTTP status, or an API-level `status` field not equal to the
success sentinel `REQUEST_SUCCEEDED`. -/
def specFetchFails (r : HttpOutcome) : Prop :=
  match r with
  | .transportError _ => True
  | .response code body =>
      (400 ≤ code ∧ code < 600) ∨ body.status ≠ some "REQUEST_SUCCEEDED"

/-- The amended failure condition: as `specFetchFails`, except that the
`status` comparison strips surrounding whitespace and reads a missing
`status` field as the empty string. -/
def amendedFetchFails (r : HttpOutcome) : Prop :=
  match r with
  | .transportError _ => True
  | .response code body =>
      (400 ≤ code ∧ code < 600) ∨ pyStrip (body.status.getD "") ≠ "REQUEST_SUCCEEDED"

/-- A four-digit year string, as produced by the BLS API (`item['year']`). -/
def validYear (s : String) : Bool :=
  match s.data with
  | [a, b, c, d] => a.isDigit && b.isDigit && c.isDigit && d.isDigit
  | _ => false

/-- The dates of a row list, in order. -/
def datesOf (rows : List (Date × Row)) : List Date := rows.map (fun r => r.1)

/-- Row lists produced by `process_data` and `loadCsv` only mention the
table's columns; used to read absent columns as NaN. -/
def Table.WF (t : Table) : Prop := ∀ r ∈ t.rows, ∀ kc ∈ r.2, kc.1 ∈ t.cols

/-- Uniqueness of dates in a table (spec invariant). -/
def uniqueDates (t : Table) : Prop := (datesOf t.rows).Nodup

/-- Ascending date order of a table's rows (spec invariant). -/
def sortedByDate (t : Table) : Prop := t.rows.Pairwise rowLe

/-- The persisted table of the spec's merge scenario: rows for
`2023-01-01 .. 2023-03-01`. -/
def scenOld : Table :=
  { cols := ["Unemployment_Rate_SA"],
    rows := [(⟨2023, 1, 1⟩, [("Unemployment_Rate_SA", some (mkRat 34 10))]),
             (⟨2023, 2, 1⟩, [("Unemployment_Rate_SA", some (mkRat 36 10))]),
             (⟨2023, 3, 1⟩, [("Unemployment_Rate_SA", some (mkRat 35 10))])] }

/-- The revisions fetch of the spec's merge scenario: an updated value for
`2023-02-01` and a new row `2023-04-01`. -/
def scenNew : Table :=
  { cols := ["Unemployment_Rate_SA"],
    rows := [(⟨2023, 2, 1⟩, [("Unemployment_Rate_SA", some (mkRat 37 10))]),
             (⟨2023, 4, 1⟩, [("Unemployment_Rate_SA", some (mkRat 39 10))])] }

/-- Two rows with the same keys in the same order whose stored values may
differ only at column `col`. -/
def RowRel (col : String) : Row → Row → Prop :=
  List.Forall₂ (fun a b => a.1 = b.1 ∧ (a.1 ≠ col → a.2 = b.2))

/-- Two dictionaries with the same keys in the same order that may differ
only at the cell `(ds, col)`. -/
def DictRel (ds col : String) : PDict → PDict → Prop :=
  List.Forall₂ (fun a b => a.1 = b.1 ∧ (a.1 ≠ ds → a.2 = b.2) ∧
    (a.1 = ds → RowRel col a.2 b.2))

/-- The stored value of one dictionary cell, when present. -/
def dictCell (pd : PDict) (ds col : String) : Option (Option Rat) :=
  alookup ((alookup pd ds).getD []) col

/-- The cell `(ds, col)` is present and stores `v`. -/
def cellIs (pd : PDict) (ds col : String) (v : Option Rat) : Prop :=
  dictCell pd ds col = some v

/-- An observation of a series whose column resolves to `c` writes the cell
`(ds, col)`. -/
def writesTo (c : String) (i : RawItem) (col ds : String) : Prop :=
  c = col ∧ dateStrOfItem i = .ok (some ds)

/-- Row-list entries related after date parsing: equal dates, and rows that
may differ only at `col` when the date is `D`. -/
def TRowRel (D : Date) (col : String) : (Date × Row) → (Date × Row) → Prop :=
  fun r₁ r₂ => r₁.1 = r₂.1 ∧ (r₁.1 ≠ D → r₁.2 = r₂.2) ∧ (r₁.1 = D → RowRel col r₁.2 r₂.2)

/-! ## Helper lemmas: association lists and dictionary invariants -/

theorem alookup_updA {α : Type} (k k' : String) (v : α) (l : List (String × α)) :
    alookup (updA k v l) k' = if k = k' then some v else alookup l k' := by
  induction l with
  | nil =>
      by_cases h : k = k' <;> simp [updA, alookup, h]
  | cons hd tl ih =>
      obtain ⟨k₀, v₀⟩ := hd
      by_cases h₀ : k₀ = k
      · subst h₀
        by_cases h : k₀ = k' <;> simp [updA, alookup, h]
      · by_cases h : k₀ = k'
        · subst h
          simp [updA, alookup, h₀, Ne.symm h₀]
        · simp [updA, alookup, h₀, h, ih]

theorem map_fst_updA {α : Type} (k : String) (v : α) (l : List (String × α)) :
    (updA k v l).map Prod.fst =
      if k ∈ l.map Prod.fst then l.map Prod.fst else l.map Prod.fst ++ [k] := by
  induction l with
  | nil => simp [updA]
  | cons hd tl ih =>
      obtain ⟨k₀, v₀⟩ := hd
      by_cases h₀ : k₀ = k
      · subst h₀; simp [updA]
      · by_cases hk : k ∈ tl.map Prod.fst <;>
          simp [updA, Ne.symm h₀, h₀, hk, ih]

theorem nodup_map_fst_updA {α : Type} (k : String) (v : α) (l : List (String × α))
    (h : (l.map Prod.fst).Nodup) : ((updA k v l).map Prod.fst).Nodup := by
  rw [map_fst_updA]
  by_cases hk : k ∈ l.map Prod.fst
  · simpa [hk]
  · simp only [hk, if_false]
    exact h.append (List.nodup_singleton k)
      (by simpa [List.disjoint_singleton] using hk)

/-- Preservation of a predicate through an `Except`-valued left fold, as in
`process_data`'s nested loops. -/
theorem foldlM_ok_preserves {ε α β : Type} {P : β → Prop} (f : β → α → Except ε β)
    (hf : ∀ b a b', P b → f b a = .ok b' → P b') :
    ∀ (l : List α) (b b' : β), l.foldlM f b = .ok b' → P b → P b' := by
  intro l
  induction l with
  | nil =>
      intro b b' h hb
      simp only [List.foldlM_nil] at h
      cases h; exact hb
  | cons a t ih =>
      intro b b' h hb
      simp only [List.foldlM_cons] at h
      cases hfa : f b a with
      | error e => rw [hfa] at h; simp [Bind.bind, Except.bind] at h
      | ok b₁ =>
          rw [hfa] at h
          simp only [Bind.bind, Except.bind] at h
          exact ih b₁ b' h (hf b a b₁ hb hfa)

theorem procItem_keys_nodup (c : String) (pd : PDict) (i : RawItem) (pd' : PDict)
    (h : procItem c pd i = .ok pd') (hnd : (pd.map Prod.fst).Nodup) :
    (pd'.map Prod.fst).Nodup := by
  unfold procItem at h
  cases hds : dateStrOfItem i with
  | error e => rw [hds] at h; cases h
  | ok o =>
      rw [hds] at h
      cases o with
      | none => cases h; exact hnd
      | some ds => cases h; exact nodup_map_fst_updA _ _ _ hnd

theorem procSeries_keys_nodup (pd : PDict) (s : RawSeries) (pd' : PDict)
    (h : procSeries pd s = .ok pd') (hnd : (pd.map Prod.fst).Nodup) :
    (pd'.map Prod.fst).Nodup := by
  exact foldlM_ok_preserves _ (fun b a b' hb hf => procItem_keys_nodup _ b a b' hf hb)
    s.data pd pd' h hnd

theorem buildDict_keys_nodup (rs : List RawSeries) (pd : PDict)
    (h : buildDict rs = .ok pd) : (pd.map Prod.fst).Nodup := by
  exact foldlM_ok_preserves _ (fun b a b' hb hf => procSeries_keys_nodup b a b' hf hb)
    rs [] pd h (by simp)

/-! ## Helper lemmas: dates, parsing, sorting, deduplication -/

theorem isDigit_bounds {c : Char} (h : c.isDigit = true) :
    48 ≤ c.toNat ∧ c.toNat ≤ 57 := by
  simp only [Char.isDigit, Bool.and_eq_true, decide_eq_true_eq, ge_iff_le] at h
  obtain ⟨h1, h2⟩ := h
  rw [UInt32.le_def, BitVec.le_def] at h1 h2
  exact ⟨h1, h2⟩

theorem char_eq_of_toNat {a b : Char} (h : a.toNat = b.toNat) : a = b :=
  Char.ext (UInt32.ext h)

/-- `parseDate` is injective where it succeeds: the accepted strings are
fixed-width renderings of their dates. -/
theorem parseDate_inj {s₁ s₂ : String} {d : Date}
    (h₁ : parseDate s₁ = some d) (h₂ : parseDate s₂ = some d) : s₁ = s₂ := by
  unfold parseDate at h₁ h₂
  split at h₁
  case h_2 => cases h₁
  case h_1 a1 a2 a3 a4 a5 a6 a7 a8 a9 a10 heq1 =>
    split at h₂
    case h_2 => cases h₂
    case h_1 b1 b2 b3 b4 b5 b6 b7 b8 b9 b10 heq2 =>
      split at h₁
      case isFalse => cases h₁
      case isTrue hd1 =>
        split at h₂
        case isFalse => cases h₂
        case isTrue hd2 =>
          split at h₁
          case isFalse => cases h₁
          case isTrue hr1 =>
            split at h₂
            case isFalse => cases h₂
            case isTrue hr2 =>
              obtain ⟨ha1, ha2, ha3, ha4, ha5, ha6, ha7, ha8, ha9, ha10⟩ := hd1
              obtain ⟨hb1, hb2, hb3, hb4, hb5, hb6, hb7, hb8, hb9, hb10⟩ := hd2
              cases h₁
              have e := Option.some.inj h₂
              rw [Date.mk.injEq] at e
              obtain ⟨e1, e2, e3⟩ := e
              apply String.ext
              rw [heq1, heq2]
              have B := fun {c : Char} (h : c.isDigit = true) => isDigit_bounds h
              obtain ⟨a1l, a1u⟩ := B ha1; obtain ⟨b1l, b1u⟩ := B hb1
              obtain ⟨a2l, a2u⟩ := B ha2; obtain ⟨b2l, b2u⟩ := B hb2
              obtain ⟨a3l, a3u⟩ := B ha3; obtain ⟨b3l, b3u⟩ := B hb3
              obtain ⟨a4l, a4u⟩ := B ha4; obtain ⟨b4l, b4u⟩ := B hb4
              obtain ⟨a6l, a6u⟩ := B ha6; obtain ⟨b6l, b6u⟩ := B hb6
              obtain ⟨a7l, a7u⟩ := B ha7; obtain ⟨b7l, b7u⟩ := B hb7
              obtain ⟨a9l, a9u⟩ := B ha9; obtain ⟨b9l, b9u⟩ := B hb9
              obtain ⟨a10l, a10u⟩ := B ha10; obtain ⟨b10l, b10u⟩ := B hb10
              simp only [digit2] at e1 e2 e3
              have h5 : a5 = b5 := by rw [ha5, hb5]
              have h8 : a8 = b8 := by rw [ha8, hb8]
              refine congrArg₂ _ (char_eq_of_toNat (by omega)) ?_
              refine congrArg₂ _ (char_eq_of_toNat (by omega)) ?_
              refine congrArg₂ _ (char_eq_of_toNat (by omega)) ?_
              refine congrArg₂ _ (char_eq_of_toNat (by omega)) ?_
              refine congrArg₂ _ h5 ?_
              refine congrArg₂ _ (char_eq_of_toNat (by omega)) ?_
              refine congrArg₂ _ (char_eq_of_toNat (by omega)) ?_
              refine congrArg₂ _ h8 ?_
              refine congrArg₂ _ (char_eq_of_toNat (by omega)) ?_
              refine congrArg₂ _ (char_eq_of_toNat (by omega)) rfl

/-- Successful `mapM parseEntry` relates dictionary entries and rows
pointwise. -/
theorem mapM_parseEntry_ok :
    ∀ {pd : PDict} {rows : List (Date × Row)}, pd.mapM parseEntry = .ok rows →
      List.Forall₂ (fun (kv : String × Row) (r : Date × Row) =>
        parseDate kv.1 = some r.1 ∧ kv.2 = r.2) pd rows := by
  intro pd
  induction pd with
  | nil =>
      intro rows h
      simp only [List.mapM_nil, pure, Except.pure] at h
      cases h
      exact List.Forall₂.nil
  | cons kv tl ih =>
      intro rows h
      simp only [List.mapM_cons, pure, Except.pure, Bind.bind, Except.bind] at h
      cases hp : parseEntry kv with
      | error e =>
          rw [hp] at h
          cases h
      | ok r =>
          rw [hp] at h
          cases htl : tl.mapM parseEntry with
          | error e => rw [htl] at h; cases h
          | ok rs' =>
              rw [htl] at h
              cases h
              refine List.Forall₂.cons ?_ (ih htl)
              unfold parseEntry at hp
              cases hpd : parseDate kv.1 with
              | none => rw [hpd] at hp; cases hp
              | some dd => rw [hpd] at hp; cases hp; exact ⟨rfl, rfl⟩

/-- A date of the rows list comes from a dictionary key that parses to it. -/
theorem mem_datesOf_of_forall₂ {pd : PDict} {rows : List (Date × Row)}
    (hf : List.Forall₂ (fun (kv : String × Row) (r : Date × Row) =>
      parseDate kv.1 = some r.1 ∧ kv.2 = r.2) pd rows)
    {d : Date} (hd : d ∈ datesOf rows) :
    ∃ kv ∈ pd, parseDate kv.1 = some d := by
  induction hf with
  | nil => simp [datesOf] at hd
  | cons hr htl ih =>
      simp only [datesOf, List.map_cons, List.mem_cons] at hd
      rcases hd with hd | hd
      · exact ⟨_, List.mem_cons_self _ _, hd ▸ hr.1⟩
      · obtain ⟨kv, hkv, hp⟩ := ih hd
        exact ⟨kv, List.mem_cons_of_mem _ hkv, hp⟩

/-- Distinct dictionary keys parse to distinct dates. -/
theorem datesOf_nodup_of_keys_nodup {pd : PDict} {rows : List (Date × Row)}
    (hf : List.Forall₂ (fun (kv : String × Row) (r : Date × Row) =>
      parseDate kv.1 = some r.1 ∧ kv.2 = r.2) pd rows)
    (hnd : (pd.map Prod.fst).Nodup) : (datesOf rows).Nodup := by
  induction hf with
  | nil => simp [datesOf]
  | cons hr htl ih =>
      rename_i kv r tlk tlr
      simp only [List.map_cons, List.nodup_cons] at hnd
      simp only [datesOf, List.map_cons, List.nodup_cons]
      refine ⟨?_, ih hnd.2⟩
      intro hmem
      obtain ⟨kv', hkv', hp'⟩ := mem_datesOf_of_forall₂ htl hmem
      have : kv.1 = kv'.1 := parseDate_inj hr.1 hp'
      exact hnd.1 (this ▸ List.mem_map_of_mem Prod.fst hkv')

instance : IsTotal (Date × Row) rowLe where
  total := by
    intro a b
    simp only [rowLe, dateLe, decide_eq_true_eq]
    omega

instance : IsTrans (Date × Row) rowLe where
  trans := by
    intro a b c
    simp only [rowLe, dateLe, decide_eq_true_eq]
    omega

theorem sortRows_perm (l : List (Date × Row)) : List.Perm (sortRows l) l :=
  List.perm_insertionSort rowLe l

theorem sortRows_sorted (l : List (Date × Row)) : (sortRows l).Pairwise rowLe :=
  List.sorted_insertionSort rowLe l

theorem hasDate_iff {rows : List (Date × Row)} {d : Date} :
    hasDate rows d = true ↔ d ∈ datesOf rows := by
  simp only [hasDate, datesOf, List.any_eq_true, decide_eq_true_eq, List.mem_map]

theorem dropDupKeepLast_sublist (l : List (Date × Row)) :
    List.Sublist (dropDupKeepLast l) l := by
  induction l with
  | nil => exact List.Sublist.refl _
  | cons r rest ih =>
      unfold dropDupKeepLast
      by_cases h : hasDate rest r.1 = true
      · rw [if_pos h]
        exact List.Sublist.cons r ih
      · rw [if_neg h]
        exact List.Sublist.cons₂ r ih

theorem datesOf_dropDupKeepLast_nodup (l : List (Date × Row)) :
    (datesOf (dropDupKeepLast l)).Nodup := by
  induction l with
  | nil => simp [dropDupKeepLast, datesOf]
  | cons r rest ih =>
      unfold dropDupKeepLast
      by_cases h : hasDate rest r.1 = true
      · rw [if_pos h]; exact ih
      · rw [if_neg h]
        simp only [datesOf, List.map_cons, List.nodup_cons]
        refine ⟨?_, ih⟩
        intro hmem
        apply h
        rw [hasDate_iff]
        exact (List.Sublist.map (fun r => r.1) (dropDupKeepLast_sublist rest)).subset hmem

theorem filter_eq_nil_of_not_hasDate {rows : List (Date × Row)} {d : Date}
    (h : ¬ hasDate rows d = true) :
    rows.filter (fun r => decide (r.1 = d)) = [] := by
  rw [List.filter_eq_nil_iff]
  intro r hr hd
  exact h (by simp only [hasDate, List.any_eq_true]; exact ⟨r, hr, hd⟩)

theorem filter_ne_nil_of_hasDate {rows : List (Date × Row)} {d : Date}
    (h : hasDate rows d = true) :
    rows.filter (fun r => decide (r.1 = d)) ≠ [] := by
  simp only [hasDate, List.any_eq_true] at h
  obtain ⟨r, hr, hd⟩ := h
  exact List.ne_nil_of_mem (List.mem_filter.mpr ⟨hr, hd⟩)

/-- `drop_duplicates(keep='last')` does not change which row is the last
row of any date. -/
theorem rowFor_dropDupKeepLast (l : List (Date × Row)) (d : Date) :
    rowFor (dropDupKeepLast l) d = rowFor l d := by
  induction l with
  | nil => rfl
  | cons r rest ih =>
      unfold dropDupKeepLast
      by_cases h : hasDate rest r.1 = true
      · rw [if_pos h, ih]
        unfold rowFor
        by_cases hd : r.1 = d
        · subst hd
          rw [List.filter_cons_of_pos (by simp)]
          rw [show (r :: List.filter (fun x => decide (x.1 = r.1)) rest) =
            [r] ++ List.filter (fun x => decide (x.1 = r.1)) rest from rfl]
          rw [List.getLast?_append_of_ne_nil _ (filter_ne_nil_of_hasDate h)]
        · rw [List.filter_cons_of_neg (by simpa using hd)]
      · rw [if_neg h]
        unfold rowFor
        by_cases hd : r.1 = d
        · subst hd
          rw [List.filter_cons_of_pos (by simp), List.filter_cons_of_pos (by simp)]
          have h1 : List.filter (fun x => decide (x.1 = r.1)) rest = [] :=
            filter_eq_nil_of_not_hasDate h
          have h2 : List.filter (fun x => decide (x.1 = r.1)) (dropDupKeepLast rest) = [] := by
            rw [List.filter_eq_nil_iff] at h1 ⊢
            intro a ha
            exact h1 a ((dropDupKeepLast_sublist rest).subset ha)
          rw [h1, h2]
        · rw [List.filter_cons_of_neg (by simpa using hd),
              List.filter_cons_of_neg (by simpa using hd)]
          exact ih

/-- With pairwise-distinct dates, the (unique) row of a date is invariant
under permutation — in particular under sorting. -/
theorem rowFor_perm {l l' : List (Date × Row)} (hperm : l.Perm l')
    (hnd : (datesOf l).Nodup) (d : Date) : rowFor l d = rowFor l' d := by
  have hpf : (l.filter (fun r => decide (r.1 = d))).Perm
      (l'.filter (fun r => decide (r.1 = d))) := hperm.filter _
  have hrep : ∀ x ∈ l.filter (fun r => decide (r.1 = d)), x.1 = d := by
    intro x hx
    simpa using (List.mem_filter.mp hx).2
  have hnodup : ((l.filter (fun r => decide (r.1 = d))).map (fun r => r.1)).Nodup := by
    have hs := List.Sublist.map (fun r => r.1) (List.filter_sublist (l := l)
      (p := fun r => decide (r.1 = d)))
    exact hs.nodup (by simpa [datesOf] using hnd)
  have hrepl : (l.filter (fun r => decide (r.1 = d))).map (fun r => r.1) =
      List.replicate (l.filter (fun r => decide (r.1 = d))).length d := by
    have := List.eq_replicate_of_mem (a := d)
      (l := (l.filter (fun r => decide (r.1 = d))).map (fun r => r.1)) ?_
    · simpa using this
    · intro b hb
      obtain ⟨x, hx, rfl⟩ := List.mem_map.mp hb
      exact hrep x hx
  have hlen : (l.filter (fun r => decide (r.1 = d))).length ≤ 1 := by
    have := hrepl ▸ hnodup
    rw [List.nodup_replicate] at this
    simpa using this
  have heq : l.filter (fun r => decide (r.1 = d)) = l'.filter (fun r => decide (r.1 = d)) := by
    rcases hfl : l.filter (fun r => decide (r.1 = d)) with _ | ⟨x, tl⟩
    · rw [hfl] at hpf
      rw [hfl]
      exact hpf.nil_eq
    · rw [hfl] at hpf hlen
      rcases tl with _ | ⟨y, tl'⟩
      · rw [hfl]
        exact List.singleton_perm.mp hpf
      · simp at hlen
  unfold rowFor
  rw [heq]

/-! ## Merge-level lemmas -/

theorem rowFor_append_right (l₁ l₂ : List (Date × Row)) (d : Date)
    (h : hasDate l₂ d = true) : rowFor (l₁ ++ l₂) d = rowFor l₂ d := by
  unfold rowFor
  rw [List.filter_append, List.getLast?_append_of_ne_nil _ (filter_ne_nil_of_hasDate h)]

/-- The merged rows keep, for every date present in the new table, exactly
the new table's (last) row of that date. -/
theorem rowFor_mergeTables (told tnew : Table) (d : Date)
    (h : hasDate tnew.rows d = true) :
    rowFor (mergeTables told tnew).rows d = rowFor tnew.rows d := by
  show rowFor (sortRows (dropDupKeepLast (told.rows ++ tnew.rows))) d = _
  rw [← rowFor_perm (sortRows_perm (dropDupKeepLast (told.rows ++ tnew.rows))).symm
      (datesOf_dropDupKeepLast_nodup _) d]
  rw [rowFor_dropDupKeepLast, rowFor_append_right _ _ _ h]

theorem hasDate_rowFor_isSome {rows : List (Date × Row)} {d : Date}
    (h : hasDate rows d = true) : ∃ r, rowFor rows d = some r := by
  unfold rowFor
  cases hg : (rows.filter (fun r => decide (r.1 = d))).getLast? with
  | none =>
      rw [List.getLast?_eq_none_iff] at hg
      exact absurd hg (filter_ne_nil_of_hasDate h)
  | some r => exact ⟨r.2, rfl⟩

/-- A `rowFor` result is the second component of a member row of that date. -/
theorem rowFor_mem {rows : List (Date × Row)} {d : Date} {r : Row}
    (h : rowFor rows d = some r) : (d, r) ∈ rows := by
  unfold rowFor at h
  cases hg : (rows.filter (fun r => decide (r.1 = d))).getLast? with
  | none => rw [hg] at h; cases h
  | some p =>
      rw [hg] at h
      cases h
      have hp := List.mem_of_getLast?_eq_some hg
      have := List.mem_filter.mp hp
      have hd : p.1 = d := by simpa using this.2
      exact hd ▸ this.1

theorem alookup_eq_none_of_not_mem {α : Type} {r : List (String × α)} {c : String}
    (h : ∀ kc ∈ r, kc.1 ≠ c) : alookup r c = none := by
  induction r with
  | nil => rfl
  | cons kv tl ih =>
      have hk : kv.1 ≠ c := h kv (List.mem_cons_self _ _)
      obtain ⟨k, v⟩ := kv
      simp only [alookup, if_neg hk]
      exact ih (fun kc hkc => h kc (List.mem_cons_of_mem _ hkc))

theorem process_data_invariants {rs : List RawSeries} {t : Table}
    (h : process_data rs = .ok t) : uniqueDates t ∧ sortedByDate t := by
  unfold process_data at h
  split at h
  · cases h
  · rename_i pd hb
    split at h
    · cases h
    · rename_i rows hm
      cases h
      constructor
      · show (datesOf (sortRows rows)).Nodup
        have hnd : (datesOf rows).Nodup :=
          datesOf_nodup_of_keys_nodup (mapM_parseEntry_ok hm) (buildDict_keys_nodup rs pd hb)
        have hperm : List.Perm (datesOf (sortRows rows)) (datesOf rows) := by
          simp only [datesOf]
          exact (sortRows_perm rows).map (fun r => r.1)
        exact hperm.nodup_iff.mpr hnd
      · exact sortRows_sorted rows

theorem mergeTables_invariants (told tnew : Table) :
    uniqueDates (mergeTables told tnew) ∧ sortedByDate (mergeTables told tnew) := by
  constructor
  · show (datesOf (sortRows (dropDupKeepLast (told.rows ++ tnew.rows)))).Nodup
    have hnd := datesOf_dropDupKeepLast_nodup (told.rows ++ tnew.rows)
    have hperm : List.Perm (datesOf (sortRows (dropDupKeepLast (told.rows ++ tnew.rows))))
        (datesOf (dropDupKeepLast (told.rows ++ tnew.rows))) := by
      simp only [datesOf]
      exact (sortRows_perm _).map (fun r => r.1)
    exact hperm.nodup_iff.mpr hnd
  · exact sortRows_sorted _

theorem cell_mergeTables (told tnew : Table) (d : Date) (c : String)
    (h : hasDate tnew.rows d = true) :
    (mergeTables told tnew).cell d c = tnew.cell d c := by
  unfold Table.cell
  rw [rowFor_mergeTables told tnew d h]

/-! ## Claims -/

/-- C1: for every merge of a new fetched table into an existing one and
every date present in both, the merged table carries the new table's value
in every column both tables have; in the spec's scenario (existing rows
2023-01-01..2023-03-01, fetch with an updated 2023-02-01 and a new
2023-04-01) the merged table has exactly 4 rows, 2023-02-01 carries the new
value 3.7, and the rows are ordered 01,02,03,04. -/
theorem C1_merge_new_value_wins :
    (∀ (told tnew : Table) (d : Date) (c : String),
        hasDate told.rows d = true → hasDate tnew.rows d = true →
        c ∈ told.cols → c ∈ tnew.cols →
        (mergeTables told tnew).cell d c = tnew.cell d c) ∧
    ((mergeTables scenOld scenNew).rows.length = 4 ∧
     (mergeTables scenOld scenNew).cell ⟨2023, 2, 1⟩ "Unemployment_Rate_SA" =
        some (mkRat 37 10) ∧
     datesOf (mergeTables scenOld scenNew).rows =
        [⟨2023, 1, 1⟩, ⟨2023, 2, 1⟩, ⟨2023, 3, 1⟩, ⟨2023, 4, 1⟩]) := by
  refine ⟨?_, by decide, by decide, by decide⟩
  intro told tnew d c _ hnew _ _
  exact cell_mergeTables told tnew d c hnew

theorem C1_merge_new_value_wins_witness :
    hasDate scenOld.rows ⟨2023, 2, 1⟩ = true ∧
    hasDate scenNew.rows ⟨2023, 2, 1⟩ = true ∧
    "Unemployment_Rate_SA" ∈ scenOld.cols ∧
    "Unemployment_Rate_SA" ∈ scenNew.cols ∧
    (mergeTables scenOld scenNew).cell ⟨2023, 2, 1⟩ "Unemployment_Rate_SA" =
      scenNew.cell ⟨2023, 2, 1⟩ "Unemployment_Rate_SA" :=
  ⟨by decide, by decide, by decide, by decide,
    C1_merge_new_value_wins.1 scenOld scenNew ⟨2023, 2, 1⟩ "Unemployment_Rate_SA"
      (by decide) (by decide) (by decide) (by decide)⟩

/-- C2: after every merge (`update_data_and_save`, lines 173–174) and every
table built by `process_data` (written by `initial_data_collection` and by
the update path), dates are unique and rows are sorted ascending by date. -/
theorem C2_tables_unique_and_sorted :
    (∀ (rs : List RawSeries) (t : Table), process_data rs = .ok t →
        uniqueDates t ∧ sortedByDate t) ∧
    (∀ told tnew : Table,
        uniqueDates (mergeTables told tnew) ∧ sortedByDate (mergeTables told tnew)) :=
  ⟨fun _ _ h => process_data_invariants h, mergeTables_invariants⟩

theorem C2_tables_unique_and_sorted_witness :
    uniqueDates { cols := ["Unemployment_Rate_SA"],
                  rows := [(⟨2023, 1, 1⟩, [("Unemployment_Rate_SA", some (mkRat 34 10))]),
                           (⟨2023, 2, 1⟩, [("Unemployment_Rate_SA", some (mkRat 36 10))])] } ∧
    sortedByDate { cols := ["Unemployment_Rate_SA"],
                   rows := [(⟨2023, 1, 1⟩, [("Unemployment_Rate_SA", some (mkRat 34 10))]),
                            (⟨2023, 2, 1⟩, [("Unemployment_Rate_SA", some (mkRat 36 10))])] } :=
  C2_tables_unique_and_sorted.1
    [⟨"LNS14000000", [⟨"2023", "M02", "3.6"⟩, ⟨"2023", "M01", "3.4"⟩]⟩] _ (by decide)

/-- C10: for every date present in both tables the merge replaces the whole
existing row with the new row; a column present in the existing table but
absent from the new fetch's table reads as null for that date after the
merge. -/
theorem C10_merge_replaces_whole_row :
    ∀ (told tnew : Table) (d : Date) (c : String),
      Table.WF tnew →
      hasDate told.rows d = true → hasDate tnew.rows d = true →
      c ∈ told.cols → c ∉ tnew.cols →
      rowFor (mergeTables told tnew).rows d = rowFor tnew.rows d ∧
      (mergeTables told tnew).cell d c = none := by
  intro told tnew d c hwf hold hnew hcin hcout
  refine ⟨rowFor_mergeTables told tnew d hnew, ?_⟩
  unfold Table.cell
  rw [rowFor_mergeTables told tnew d hnew]
  obtain ⟨r, hr⟩ := hasDate_rowFor_isSome hnew
  rw [hr]
  show cellVal r c = none
  have hnone : alookup r c = none := by
    apply alookup_eq_none_of_not_mem
    intro kc hkc hkc_eq
    exact hcout (hkc_eq ▸ hwf _ (rowFor_mem hr) kc hkc)
  unfold cellVal
  rw [hnone]
  rfl

theorem C10_merge_replaces_whole_row_witness :
    rowFor (mergeTables
        { cols := ["A", "B"],
          rows := [(⟨2023, 2, 1⟩, [("A", some (mkRat 1 1)), ("B", some (mkRat 2 1))])] }
        { cols := ["A"], rows := [(⟨2023, 2, 1⟩, [("A", some (mkRat 5 1))])] }).rows
      ⟨2023, 2, 1⟩ =
      rowFor [(⟨2023, 2, 1⟩, [("A", some (mkRat 5 1))])] ⟨2023, 2, 1⟩ ∧
    (mergeTables
        { cols := ["A", "B"],
          rows := [(⟨2023, 2, 1⟩, [("A", some (mkRat 1 1)), ("B", some (mkRat 2 1))])] }
        { cols := ["A"], rows := [(⟨2023, 2, 1⟩, [("A", some (mkRat 5 1))])] }).cell
      ⟨2023, 2, 1⟩ "B" = none :=
  C10_merge_replaces_whole_row
    { cols := ["A", "B"],
      rows := [(⟨2023, 2, 1⟩, [("A", some (mkRat 1 1)), ("B", some (mkRat 2 1))])] }
    { cols := ["A"], rows := [(⟨2023, 2, 1⟩, [("A", some (mkRat 5 1))])] }
    ⟨2023, 2, 1⟩ "B"
    (by
      intro r hr kc hkc
      simp only [List.mem_singleton] at hr
      subst hr
      simp only [List.mem_singleton] at hkc
      subst hkc
      decide)
    (by decide) (by decide) (by decide) (by decide)

/-! ## Period-code handling (C3, C4) -/

theorem dateStrOfItem_none {b : RawItem}
    (hM : b.period.data.head? ≠ some 'M')
    (hQ : b.period ∉ ["Q01", "Q02", "Q03", "Q04"]) :
    dateStrOfItem b = .ok none := by
  unfold dateStrOfItem
  rw [if_neg hM]
  by_cases hq : b.period.data.head? = some 'Q'
  · rw [if_pos hq]
    simp only [List.mem_cons, List.not_mem_nil, or_false, not_or] at hQ
    obtain ⟨h1, h2, h3, h4⟩ := hQ
    have hl : alookup quarter_map b.period = none := by
      simp only [quarter_map, alookup]
      rw [if_neg (fun h => h1 h.symm), if_neg (fun h => h2 h.symm),
          if_neg (fun h => h3 h.symm), if_neg (fun h => h4 h.symm)]
    rw [hl]
    rfl
  · rw [if_neg hq]

theorem procItem_drop {c : String} {pd : PDict} {b : RawItem}
    (h : dateStrOfItem b = .ok none) : procItem c pd b = .ok pd := by
  unfold procItem
  rw [h]

theorem procSeries_drop (sid : String) (pre post : List RawItem) (b : RawItem)
    (h : dateStrOfItem b = .ok none) (pd : PDict) :
    procSeries pd ⟨sid, pre ++ b :: post⟩ = procSeries pd ⟨sid, pre ++ post⟩ := by
  unfold procSeries
  show (pre ++ b :: post).foldlM (procItem (seriesColumn sid)) pd =
    (pre ++ post).foldlM (procItem (seriesColumn sid)) pd
  rw [List.foldlM_append, List.foldlM_append]
  apply congrArg
  funext pd'
  rw [List.foldlM_cons, procItem_drop h]
  rfl

theorem buildDict_drop (rs₁ rs₂ : List RawSeries) (sid : String)
    (pre post : List RawItem) (b : RawItem) (h : dateStrOfItem b = .ok none) :
    buildDict (rs₁ ++ ⟨sid, pre ++ b :: post⟩ :: rs₂) =
    buildDict (rs₁ ++ ⟨sid, pre ++ post⟩ :: rs₂) := by
  unfold buildDict
  rw [List.foldlM_append, List.foldlM_append]
  apply congrArg
  funext pd
  rw [List.foldlM_cons, List.foldlM_cons, procSeries_drop sid pre post b h pd]

/-! ## Claims (continued) -/

/-- C3 (counterexample): `M13` is not a valid monthly code `M01..M12`, yet
`process_data` does not drop it silently — the derived string `2023-13-01`
makes `pd.to_datetime` raise, so the whole transformation errors, while the
same input without that observation succeeds. -/
theorem C3_counterexample :
    (process_data [⟨"LNS14000000", [⟨"2023", "M13", "5.0"⟩]⟩]).isOk = false ∧
    (process_data [⟨"LNS14000000", []⟩]).isOk = true := by
  decide

/-- C3 (amended): every observation whose period code neither starts with
`M` nor is one of `Q01..Q04` (for example `A01`, or `Q05`) is dropped
silently — removing it from the input leaves `process_data`'s result
unchanged, so it contributes no row and raises no error while all other
observations are still processed.  (`M`-prefixed codes are not validated
against `M01..M12`: `M13` raises instead, see the counterexample.) -/
theorem C3_invalid_period_dropped :
    ∀ (rs₁ rs₂ : List RawSeries) (sid : String) (pre post : List RawItem)
      (b : RawItem),
      b.period.data.head? ≠ some 'M' →
      b.period ∉ ["Q01", "Q02", "Q03", "Q04"] →
      process_data (rs₁ ++ ⟨sid, pre ++ b :: post⟩ :: rs₂) =
      process_data (rs₁ ++ ⟨sid, pre ++ post⟩ :: rs₂) := by
  intro rs₁ rs₂ sid pre post b hM hQ
  unfold process_data
  rw [buildDict_drop rs₁ rs₂ sid pre post b (dateStrOfItem_none hM hQ)]

theorem C3_invalid_period_dropped_witness :
    (⟨"2023", "A01", "1.0"⟩ : RawItem).period.data.head? ≠ some 'M' ∧
    (⟨"2023", "A01", "1.0"⟩ : RawItem).period ∉ ["Q01", "Q02", "Q03", "Q04"] ∧
    process_data [⟨"EIUIR", [⟨"2023", "A01", "1.0"⟩, ⟨"2023", "M03", "2.5"⟩]⟩] =
      process_data [⟨"EIUIR", [⟨"2023", "M03", "2.5"⟩]⟩] :=
  ⟨by decide, by decide,
    C3_invalid_period_dropped [] [] "EIUIR" [] [⟨"2023", "M03", "2.5"⟩]
      ⟨"2023", "A01", "1.0"⟩ (by decide) (by decide)⟩

theorem validYear_destruct {s : String} (h : validYear s = true) :
    ∃ a b c d : Char, s.data = [a, b, c, d] ∧ a.isDigit = true ∧ b.isDigit = true ∧
      c.isDigit = true ∧ d.isDigit = true := by
  unfold validYear at h
  split at h
  · rename_i a b c d heq
    simp only [Bool.and_eq_true] at h
    exact ⟨a, b, c, d, heq, h.1.1.1, h.1.1.2, h.1.2, h.2⟩
  · cases h

theorem parseDate_concat (y : String) (a b c d m1 m2 : Char)
    (hy : y.data = [a, b, c, d])
    (ha : a.isDigit = true) (hb : b.isDigit = true)
    (hc : c.isDigit = true) (hd : d.isDigit = true)
    (hm1 : m1.isDigit = true) (hm2 : m2.isDigit = true)
    (hlo : 1 ≤ digit2 m1 m2) (hhi : digit2 m1 m2 ≤ 12) :
    parseDate (y ++ "-" ++ String.mk [m1, m2] ++ "-01") =
      some ⟨digit2 a b * 100 + digit2 c d, digit2 m1 m2, 1⟩ := by
  have hdata : (y ++ "-" ++ String.mk [m1, m2] ++ "-01").data =
      [a, b, c, d, '-', m1, m2, '-', '0', '1'] := by
    have h1 : ("-" : String).data = ['-'] := rfl
    have h2 : ("-01" : String).data = ['-', '0', '1'] := rfl
    simp [String.data_append, hy, h1, h2]
  unfold parseDate
  rw [hdata]
  dsimp only
  rw [if_pos ⟨ha, hb, hc, hd, rfl, hm1, hm2, rfl, by decide, by decide⟩]
  rw [if_pos ⟨hlo, hhi, by decide, by decide⟩]
  have hday : digit2 '0' '1' = 1 := by decide
  rw [hday]

theorem C4_mon_case (item : RawItem) (m1 m2 : Char) (mo : Nat)
    (hp : item.period.data = ['M', m1, m2])
    (hpy : pyInt? (String.mk [m1, m2]) = some (mo : Int))
    (hpad : pad2 ((mo : Nat) : Int) = String.mk [m1, m2])
    (hm1 : m1.isDigit = true) (hm2 : m2.isDigit = true)
    (hdig : digit2 m1 m2 = mo)
    (hlo : 1 ≤ mo) (hhi : mo ≤ 12)
    (hvy : validYear item.year = true) :
    ∃ (s : String) (yv : Nat),
      dateStrOfItem item = .ok (some s) ∧ parseDate s = some ⟨yv, mo, 1⟩ := by
  obtain ⟨a, b, c, d, hy, ha, hb, hc, hd⟩ := validYear_destruct hvy
  refine ⟨item.year ++ "-" ++ String.mk [m1, m2] ++ "-01",
    digit2 a b * 100 + digit2 c d, ?_, ?_⟩
  · unfold dateStrOfItem
    rw [if_pos (by rw [hp]; rfl)]
    have htail : item.period.data.tail = [m1, m2] := by rw [hp]; rfl
    rw [htail, hpy]
    show Except.ok (some (item.year ++ "-" ++ pad2 ((mo : Nat) : Int) ++ "-01")) = _
    rw [hpad]
  · have hpd := parseDate_concat item.year a b c d m1 m2 hy ha hb hc hd hm1 hm2
      (hdig ▸ hlo) (hdig ▸ hhi)
    rw [hpd, hdig]

theorem C4_q_case (item : RawItem) (m1 m2 : Char) (mo : Nat)
    (hpQ : item.period.data.head? = some 'Q')
    (hlook : alookup quarter_map item.period = some ((mo : Nat) : Int))
    (hpad : pad2 ((mo : Nat) : Int) = String.mk [m1, m2])
    (hm1 : m1.isDigit = true) (hm2 : m2.isDigit = true)
    (hdig : digit2 m1 m2 = mo)
    (hlo : 1 ≤ mo) (hhi : mo ≤ 12)
    (hvy : validYear item.year = true) :
    ∃ (s : String) (yv : Nat),
      dateStrOfItem item = .ok (some s) ∧ parseDate s = some ⟨yv, mo, 1⟩ := by
  obtain ⟨a, b, c, d, hy, ha, hb, hc, hd⟩ := validYear_destruct hvy
  refine ⟨item.year ++ "-" ++ String.mk [m1, m2] ++ "-01",
    digit2 a b * 100 + digit2 c d, ?_, ?_⟩
  · unfold dateStrOfItem
    rw [if_neg (by rw [hpQ]; decide), if_pos hpQ, hlook]
    show Except.ok (some (item.year ++ "-" ++ pad2 ((mo : Nat) : Int) ++ "-01")) = _
    rw [hpad]
  · have hpd := parseDate_concat item.year a b c d m1 m2 hy ha hb hc hd hm1 hm2
      (hdig ▸ hlo) (hdig ▸ hhi)
    rw [hpd, hdig]

/-- C4: for every observation with a valid monthly code `M01..M12` (and a
four-digit year), the derived date's month is the code's numeric suffix and
the day is 01; for quarterly codes `Q01,Q02,Q03,Q04` the derived month is
`3,6,9,12` respectively, with day 01. -/
theorem C4_period_to_date :
    (∀ (item : RawItem) (m : Nat), 1 ≤ m → m ≤ 12 →
        validYear item.year = true →
        item.period = "M" ++ pad2 (m : Int) →
        ∃ (s : String) (yv : Nat),
          dateStrOfItem item = .ok (some s) ∧ parseDate s = some ⟨yv, m, 1⟩) ∧
    (∀ (item : RawItem) (mo : Nat), validYear item.year = true →
        (item.period, mo) ∈ [("Q01", 3), ("Q02", 6), ("Q03", 9), ("Q04", 12)] →
        ∃ (s : String) (yv : Nat),
          dateStrOfItem item = .ok (some s) ∧ parseDate s = some ⟨yv, mo, 1⟩) := by
  constructor
  · intro item m h1 h2 hvy hp
    have hdata : ∀ cs : List Char, ("M" ++ pad2 (m : Int)).data = cs →
        item.period.data = cs := by
      intro cs hcs
      rw [hp]
      exact hcs
    interval_cases m
    · exact C4_mon_case item '0' '1' 1 (hdata _ (by decide)) (by decide) (by decide)
        (by decide) (by decide) (by decide) (by decide) (by decide) hvy
    · exact C4_mon_case item '0' '2' 2 (hdata _ (by decide)) (by decide) (by decide)
        (by decide) (by decide) (by decide) (by decide) (by decide) hvy
    · exact C4_mon_case item '0' '3' 3 (hdata _ (by decide)) (by decide) (by decide)
        (by decide) (by decide) (by decide) (by decide) (by decide) hvy
    · exact C4_mon_case item '0' '4' 4 (hdata _ (by decide)) (by decide) (by decide)
        (by decide) (by decide) (by decide) (by decide) (by decide) hvy
    · exact C4_mon_case item '0' '5' 5 (hdata _ (by decide)) (by decide) (by decide)
        (by decide) (by decide) (by decide) (by decide) (by decide) hvy
    · exact C4_mon_case item '0' '6' 6 (hdata _ (by decide)) (by decide) (by decide)
        (by decide) (by decide) (by decide) (by decide) (by decide) hvy
    · exact C4_mon_case item '0' '7' 7 (hdata _ (by decide)) (by decide) (by decide)
        (by decide) (by decide) (by decide) (by decide) (by decide) hvy
    · exact C4_mon_case item '0' '8' 8 (hdata _ (by decide)) (by decide) (by decide)
        (by decide) (by decide) (by decide) (by decide) (by decide) hvy
    · exact C4_mon_case item '0' '9' 9 (hdata _ (by decide)) (by decide) (by decide)
        (by decide) (by decide) (by decide) (by decide) (by decide) hvy
    · exact C4_mon_case item '1' '0' 10 (hdata _ (by decide)) (by decide) (by decide)
        (by decide) (by decide) (by decide) (by decide) (by decide) hvy
    · exact C4_mon_case item '1' '1' 11 (hdata _ (by decide)) (by decide) (by decide)
        (by decide) (by decide) (by decide) (by decide) (by decide) hvy
    · exact C4_mon_case item '1' '2' 12 (hdata _ (by decide)) (by decide) (by decide)
        (by decide) (by decide) (by decide) (by decide) (by decide) hvy
  · intro item mo hvy hmem
    simp only [List.mem_cons, List.not_mem_nil, or_false, Prod.mk.injEq] at hmem
    rcases hmem with ⟨hp, hmo⟩ | ⟨hp, hmo⟩ | ⟨hp, hmo⟩ | ⟨hp, hmo⟩ <;> subst hmo
    · exact C4_q_case item '0' '3' 3 (by rw [hp]; rfl) (by rw [hp]; decide)
        (by decide) (by decide) (by decide) (by decide) (by decide) (by decide) hvy
    · exact C4_q_case item '0' '6' 6 (by rw [hp]; rfl) (by rw [hp]; decide)
        (by decide) (by decide) (by decide) (by decide) (by decide) (by decide) hvy
    · exact C4_q_case item '0' '9' 9 (by rw [hp]; rfl) (by rw [hp]; decide)
        (by decide) (by decide) (by decide) (by decide) (by decide) (by decide) hvy
    · exact C4_q_case item '1' '2' 12 (by rw [hp]; rfl) (by rw [hp]; decide)
        (by decide) (by decide) (by decide) (by decide) (by decide) (by decide) hvy

theorem C4_period_to_date_witness :
    (∃ (s : String) (yv : Nat),
        dateStrOfItem ⟨"2023", "M07", "4.2"⟩ = .ok (some s) ∧
        parseDate s = some ⟨yv, 7, 1⟩) ∧
    (∃ (s : String) (yv : Nat),
        dateStrOfItem ⟨"2023", "Q02", "4.2"⟩ = .ok (some s) ∧
        parseDate s = some ⟨yv, 6, 1⟩) :=
  ⟨C4_period_to_date.1 ⟨"2023", "M07", "4.2"⟩ 7 (by decide) (by decide) (by decide)
      (by decide),
   C4_period_to_date.2 ⟨"2023", "Q02", "4.2"⟩ 6 (by decide) (by decide)⟩

/-- C5: on a run with the persisted file missing or zero-length,
`update_data_and_save` performs the full-history fetch over
`[currentYear − 5, currentYear]`, and (when that fetch and the transform
succeed) writes the freshly processed table and ends the run; with an
existing file that loads successfully it instead fetches the revisions
window `[currentYear − 3, currentYear]` and merges into the existing
table.  The window list of the result records every fetch the run makes. -/
theorem C5_run_paths :
    FULL_HISTORY_YEARS = 5 ∧ UPDATE_WINDOW_YEARS = 3 ∧
    (∀ (fetch : Fetch) (year : Nat) (fs : PFile),
        (fs = .absent ∨ fs = .empty) →
        ∀ (sd : List RawSeries) (t : Table),
          fetch (year - FULL_HISTORY_YEARS) year = some sd →
          process_data sd = .ok t →
          update_data_and_save fetch year fs =
            .ok (writeTable t, [(year - FULL_HISTORY_YEARS, year)])) ∧
    (∀ (fetch : Fetch) (year : Nat) (header : List String) (rows : List (List String))
        (df : Table) (sd : List RawSeries) (t : Table),
        loadCsv header rows = .ok df →
        fetch (year - UPDATE_WINDOW_YEARS) year = some sd →
        process_data sd = .ok t →
        update_data_and_save fetch year (.csv header rows) =
          .ok (writeTable (mergeTables df t), [(year - UPDATE_WINDOW_YEARS, year)])) := by
  refine ⟨rfl, rfl, ?_, ?_⟩
  · intro fetch year fs hfs sd t hfetch hproc
    have hinit : initial_data_collection fetch year fs =
        .ok (writeTable t, [(year - FULL_HISTORY_YEARS, year)]) := by
      unfold initial_data_collection
      rw [hfetch]
      dsimp only
      rw [hproc]
    rcases hfs with rfl | rfl
    · exact hinit
    · exact hinit
  · intro fetch year header rows df sd t hload hfetch hproc
    unfold update_data_and_save
    dsimp only
    rw [hload]
    dsimp only
    rw [hfetch]
    dsimp only
    rw [hproc]

theorem C5_run_paths_witness :
    update_data_and_save
        (fun a _ => if a = 2020 then some [⟨"EIUIR", [⟨"2023", "M01", "1.5"⟩]⟩] else none)
        2025 .absent =
      .ok (writeTable { cols := ["Imports_All_Commodities_U"],
                        rows := [(⟨2023, 1, 1⟩,
                          [("Imports_All_Commodities_U", some (mkRat 15 10))])] },
           [(2020, 2025)]) ∧
    update_data_and_save
        (fun a _ => if a = 2022 then some [⟨"EIUIR", [⟨"2023", "M01", "1.5"⟩]⟩] else none)
        2025 (.csv ["Date", "A"] [["2023-01-01", "3.4"]]) =
      .ok (writeTable (mergeTables
              { cols := ["A"], rows := [(⟨2023, 1, 1⟩, [("A", some (mkRat 34 10))])] }
              { cols := ["Imports_All_Commodities_U"],
                rows := [(⟨2023, 1, 1⟩,
                  [("Imports_All_Commodities_U", some (mkRat 15 10))])] }),
           [(2022, 2025)]) :=
  ⟨C5_run_paths.2.2.1
      (fun a _ => if a = 2020 then some [⟨"EIUIR", [⟨"2023", "M01", "1.5"⟩]⟩] else none)
      2025 .absent (Or.inl rfl) [⟨"EIUIR", [⟨"2023", "M01", "1.5"⟩]⟩]
      { cols := ["Imports_All_Commodities_U"],
        rows := [(⟨2023, 1, 1⟩, [("Imports_All_Commodities_U", some (mkRat 15 10))])] }
      (by decide) (by decide),
   C5_run_paths.2.2.2
      (fun a _ => if a = 2022 then some [⟨"EIUIR", [⟨"2023", "M01", "1.5"⟩]⟩] else none)
      2025 ["Date", "A"] [["2023-01-01", "3.4"]]
      { cols := ["A"], rows := [(⟨2023, 1, 1⟩, [("A", some (mkRat 34 10))])] }
      [⟨"EIUIR", [⟨"2023", "M01", "1.5"⟩]⟩]
      { cols := ["Imports_All_Commodities_U"],
        rows := [(⟨2023, 1, 1⟩, [("Imports_All_Commodities_U", some (mkRat 15 10))])] }
      (by decide) (by decide) (by decide)⟩

/-- C6: a load failure caused by the missing `Date` header deletes the file
and rebuilds it from the full-history fetch alone, so the resulting file is
exactly the written form of the freshly processed full-history table; any
other load error is fatal and propagates. -/
theorem C6_corrupt_header_rebuild :
    (∀ (fetch : Fetch) (year : Nat) (header : List String) (rows : List (List String))
        (sd : List RawSeries) (t : Table),
        loadCsv header rows = .error .missingDate →
        fetch (year - FULL_HISTORY_YEARS) year = some sd →
        process_data sd = .ok t →
        update_data_and_save fetch year (.csv header rows) =
          .ok (writeTable t, [(year - FULL_HISTORY_YEARS, year)])) ∧
    (∀ (fetch : Fetch) (year : Nat) (header : List String) (rows : List (List String))
        (e : String),
        loadCsv header rows = .error (.other e) →
        update_data_and_save fetch year (.csv header rows) = .error e) := by
  constructor
  · intro fetch year header rows sd t hload hfetch hproc
    unfold update_data_and_save
    dsimp only
    rw [hload]
    dsimp only
    unfold initial_data_collection
    rw [hfetch]
    dsimp only
    rw [hproc]
  · intro fetch year header rows e hload
    unfold update_data_and_save
    dsimp only
    rw [hload]

theorem C6_corrupt_header_rebuild_witness :
    update_data_and_save
        (fun a _ => if a = 2020 then some [⟨"EIUIR", [⟨"2023", "M01", "1.5"⟩]⟩] else none)
        2025 (.csv ["NoDateHere", "A"] [["x", "y"]]) =
      .ok (writeTable { cols := ["Imports_All_Commodities_U"],
                        rows := [(⟨2023, 1, 1⟩,
                          [("Imports_All_Commodities_U", some (mkRat 15 10))])] },
           [(2020, 2025)]) ∧
    update_data_and_save
        (fun a _ => if a = 2020 then some [⟨"EIUIR", [⟨"2023", "M01", "1.5"⟩]⟩] else none)
        2025 (.csv ["Date", "A"] [["bad-date-here", "1"]]) =
      .error "could not parse date bad-date-here" :=
  ⟨C6_corrupt_header_rebuild.1
      (fun a _ => if a = 2020 then some [⟨"EIUIR", [⟨"2023", "M01", "1.5"⟩]⟩] else none)
      2025 ["NoDateHere", "A"] [["x", "y"]]
      [⟨"EIUIR", [⟨"2023", "M01", "1.5"⟩]⟩]
      { cols := ["Imports_All_Commodities_U"],
        rows := [(⟨2023, 1, 1⟩, [("Imports_All_Commodities_U", some (mkRat 15 10))])] }
      (by decide) (by decide) (by decide),
   C6_corrupt_header_rebuild.2
      (fun a _ => if a = 2020 then some [⟨"EIUIR", [⟨"2023", "M01", "1.5"⟩]⟩] else none)
      2025 ["Date", "A"] [["bad-date-here", "1"]] "could not parse date bad-date-here"
      (by decide)⟩

/-- C7: on the valid-file path, if the revisions fetch fails the persisted
file is returned unchanged and the run ends without an error. -/
theorem C7_failed_fetch_leaves_file :
    ∀ (fetch : Fetch) (year : Nat) (header : List String) (rows : List (List String))
      (df : Table),
      loadCsv header rows = .ok df →
      fetch (year - UPDATE_WINDOW_YEARS) year = none →
      update_data_and_save fetch year (.csv header rows) =
        .ok (.csv header rows, [(year - UPDATE_WINDOW_YEARS, year)]) := by
  intro fetch year header rows df hload hfetch
  unfold update_data_and_save
  dsimp only
  rw [hload]
  dsimp only
  rw [hfetch]

theorem C7_failed_fetch_leaves_file_witness :
    update_data_and_save (fun _ _ => none) 2025
        (.csv ["Date", "A"] [["2023-01-01", "3.4"]]) =
      .ok (.csv ["Date", "A"] [["2023-01-01", "3.4"]], [(2022, 2025)]) :=
  C7_failed_fetch_leaves_file (fun _ _ => none) 2025 ["Date", "A"]
    [["2023-01-01", "3.4"]]
    { cols := ["A"], rows := [(⟨2023, 1, 1⟩, [("A", some (mkRat 34 10))])] }
    (by decide) rfl

/-- C9 (counterexample): a 200 response whose `status` field is
`"REQUEST_SUCCEEDED "` (trailing blank) is not equal to the success
sentinel, so the claim requires no result; but `get_bls_data` strips
whitespace before comparing and returns the series list. -/
theorem C9_counterexample :
    ¬ ((get_bls_data (.response 200 ⟨some "REQUEST_SUCCEEDED ", none, []⟩) = none) ↔
        specFetchFails (.response 200 ⟨some "REQUEST_SUCCEEDED ", none, []⟩)) := by
  intro h
  have h1 : specFetchFails (.response 200 ⟨some "REQUEST_SUCCEEDED ", none, []⟩) := by
    unfold specFetchFails
    exact Or.inr (by decide)
  have h2 := h.mpr h1
  have h3 : get_bls_data (.response 200 ⟨some "REQUEST_SUCCEEDED ", none, []⟩) =
      some [] := by decide
  rw [h3] at h2
  cases h2

/-- C9 (amended): the Collector returns no result exactly when a transport
error occurs, the HTTP status is 400–599, or the response's `status` field
— read as the empty string when absent and stripped of surrounding
whitespace — differs from `REQUEST_SUCCEEDED`; otherwise it returns the raw
series list of the response body. -/
theorem C9_fetch_failure_classification :
    ∀ (r : HttpOutcome),
      (get_bls_data r = none ↔ amendedFetchFails r) ∧
      (¬ amendedFetchFails r →
        ∃ (body : ApiBody) (code : Nat), r = .response code body ∧
          get_bls_data r = some body.results) := by
  intro r
  cases r with
  | transportError m =>
      constructor
      · simp [get_bls_data, amendedFetchFails]
      · intro h
        exact absurd trivial h
  | response code body =>
      by_cases hc : 400 ≤ code ∧ code < 600
      · constructor
        · simp [get_bls_data, amendedFetchFails, hc]
        · intro h
          exact absurd (Or.inl hc) h
      · by_cases hs : pyStrip (body.status.getD "") = "REQUEST_SUCCEEDED"
        · constructor
          · simp [get_bls_data, amendedFetchFails, hc, hs]
          · intro _
            exact ⟨body, code, rfl, by simp [get_bls_data, hc, hs]⟩
        · constructor
          · simp [get_bls_data, amendedFetchFails, hc, hs]
          · intro h
            exact absurd (Or.inr hs) h

theorem C9_fetch_failure_classification_witness :
    ∃ (body : ApiBody) (code : Nat),
      HttpOutcome.response 200 ⟨some "REQUEST_SUCCEEDED", none, [⟨"EIUIR", []⟩]⟩ =
        .response code body ∧
      get_bls_data (.response 200 ⟨some "REQUEST_SUCCEEDED", none, [⟨"EIUIR", []⟩]⟩) =
        some body.results :=
  (C9_fetch_failure_classification
      (.response 200 ⟨some "REQUEST_SUCCEEDED", none, [⟨"EIUIR", []⟩]⟩)).2
    (fun h => by
      simp only [amendedFetchFails] at h
      rcases h with h | h
      · exact absurd h (by decide)
      · exact h (by decide))

/-! ## C8: value errors are contained to their cell -/

theorem rowRel_refl (col : String) (r : Row) : RowRel col r r :=
  List.forall₂_same.mpr (fun _ _ => ⟨rfl, fun _ => rfl⟩)

theorem dictRel_refl (ds col : String) (pd : PDict) : DictRel ds col pd pd :=
  List.forall₂_same.mpr (fun _ _ => ⟨rfl, fun _ => rfl, fun _ => rowRel_refl col _⟩)

theorem alookup_rowRel {col : String} {r₁ r₂ : Row} (h : RowRel col r₁ r₂)
    {c : String} (hc : c ≠ col) : alookup r₁ c = alookup r₂ c := by
  induction h with
  | nil => rfl
  | @cons a b l₁ l₂ hp htl ih =>
      obtain ⟨hk, hv⟩ := hp
      obtain ⟨k, v₁⟩ := a
      obtain ⟨k', v₂⟩ := b
      simp only at hk
      subst hk
      by_cases hkc : k = c
      · subst hkc
        have hvv : v₁ = v₂ := hv (by simpa using hc)
        simp [alookup, hvv]
      · simp [alookup, hkc, ih]

theorem dictRel_keys {ds col : String} {d₁ d₂ : PDict} (h : DictRel ds col d₁ d₂) :
    d₁.map Prod.fst = d₂.map Prod.fst := by
  induction h with
  | nil => rfl
  | @cons a b l₁ l₂ hp htl ih =>
      simp only [List.map_cons, ih, List.cons.injEq]
      exact ⟨hp.1, trivial⟩

theorem alookup_dictRel_ne {ds col : String} {d₁ d₂ : PDict}
    (h : DictRel ds col d₁ d₂) {k : String} (hk : k ≠ ds) :
    alookup d₁ k = alookup d₂ k := by
  induction h with
  | nil => rfl
  | @cons a b l₁ l₂ hp htl ih =>
      obtain ⟨hk1, hv, _⟩ := hp
      obtain ⟨k₀, v₁⟩ := a
      obtain ⟨k₀', v₂⟩ := b
      simp only at hk1
      subst hk1
      by_cases hkc : k₀ = k
      · subst hkc
        have hvv : v₁ = v₂ := hv hk
        simp [alookup, hvv]
      · simp [alookup, hkc, ih]

theorem alookup_dictRel_ds {ds col : String} {d₁ d₂ : PDict}
    (h : DictRel ds col d₁ d₂) :
    (alookup d₁ ds = none ∧ alookup d₂ ds = none) ∨
    (∃ r₁ r₂, alookup d₁ ds = some r₁ ∧ alookup d₂ ds = some r₂ ∧ RowRel col r₁ r₂) := by
  induction h with
  | nil => exact Or.inl ⟨rfl, rfl⟩
  | @cons a b l₁ l₂ hp htl ih =>
      obtain ⟨hk1, _, hds⟩ := hp
      obtain ⟨k₀, v₁⟩ := a
      obtain ⟨k₀', v₂⟩ := b
      simp only at hk1
      subst hk1
      by_cases hkc : k₀ = ds
      · subst hkc
        exact Or.inr ⟨v₁, v₂, by simp [alookup], by simp [alookup], hds rfl⟩
      · simpa [alookup, hkc] using ih

theorem rowRel_updA {col : String} {r₁ r₂ : Row} (h : RowRel col r₁ r₂)
    (c : String) (v : Option Rat) : RowRel col (updA c v r₁) (updA c v r₂) := by
  induction h with
  | nil => exact List.Forall₂.cons ⟨rfl, fun _ => rfl⟩ List.Forall₂.nil
  | @cons a b l₁ l₂ hp htl ih =>
      obtain ⟨hk, hv⟩ := hp
      obtain ⟨k₀, v₁⟩ := a
      obtain ⟨k₀', v₂⟩ := b
      simp only at hk
      subst hk
      by_cases hkc : k₀ = c
      · subst hkc
        simp only [updA, if_pos rfl]
        exact List.Forall₂.cons ⟨rfl, fun _ => rfl⟩ htl
      · simp only [updA, if_neg hkc]
        exact List.Forall₂.cons ⟨rfl, hv⟩ ih

theorem rowRel_updA_col {col : String} {r₁ r₂ : Row} (h : RowRel col r₁ r₂)
    (v₁ v₂ : Option Rat) : RowRel col (updA col v₁ r₁) (updA col v₂ r₂) := by
  induction h with
  | nil =>
      exact List.Forall₂.cons ⟨rfl, fun hne => absurd rfl hne⟩ List.Forall₂.nil
  | @cons a b l₁ l₂ hp htl ih =>
      obtain ⟨hk, hv⟩ := hp
      obtain ⟨k₀, w₁⟩ := a
      obtain ⟨k₀', w₂⟩ := b
      simp only at hk
      subst hk
      by_cases hkc : k₀ = col
      · subst hkc
        simp only [updA, if_pos rfl]
        exact List.Forall₂.cons ⟨rfl, fun hne => absurd rfl hne⟩ htl
      · simp only [updA, if_neg hkc]
        exact List.Forall₂.cons ⟨rfl, hv⟩ ih

theorem dictRel_updA {ds col : String} {d₁ d₂ : PDict} (h : DictRel ds col d₁ d₂)
    (k : String) {r₁ r₂ : Row}
    (hr : (k ≠ ds → r₁ = r₂) ∧ (k = ds → RowRel col r₁ r₂)) :
    DictRel ds col (updA k r₁ d₁) (updA k r₂ d₂) := by
  induction h with
  | nil =>
      exact List.Forall₂.cons ⟨rfl, fun hne => hr.1 hne, fun he => hr.2 he⟩ List.Forall₂.nil
  | @cons a b l₁ l₂ hp htl ih =>
      obtain ⟨hk1, hv, hds⟩ := hp
      obtain ⟨k₀, w₁⟩ := a
      obtain ⟨k₀', w₂⟩ := b
      simp only at hk1
      subst hk1
      by_cases hkc : k₀ = k
      · subst hkc
        simp only [updA, if_pos rfl]
        exact List.Forall₂.cons ⟨rfl, fun hne => hr.1 hne, fun he => hr.2 he⟩ htl
      · simp only [updA, if_neg hkc]
        exact List.Forall₂.cons ⟨rfl, hv, hds⟩ ih

theorem procItem_rel {ds col c : String} {d₁ d₂ : PDict} (i : RawItem)
    (h : DictRel ds col d₁ d₂) :
    (∃ e, procItem c d₁ i = .error e ∧ procItem c d₂ i = .error e) ∨
    (∃ d₁' d₂', procItem c d₁ i = .ok d₁' ∧ procItem c d₂ i = .ok d₂' ∧
      DictRel ds col d₁' d₂') := by
  unfold procItem
  cases hds : dateStrOfItem i with
  | error e => exact Or.inl ⟨e, rfl, rfl⟩
  | ok o =>
      cases o with
      | none => exact Or.inr ⟨d₁, d₂, rfl, rfl, h⟩
      | some k =>
          refine Or.inr ⟨_, _, rfl, rfl, ?_⟩
          by_cases hk : k = ds
          · subst hk
            rcases alookup_dictRel_ds h with ⟨h1, h2⟩ | ⟨r₁, r₂, h1, h2, hrel⟩
            · rw [h1, h2]
              exact dictRel_updA h _ ⟨fun _ => rfl, fun _ => rowRel_refl col _⟩
            · rw [h1, h2]
              simp only [Option.getD_some]
              exact dictRel_updA h _
                ⟨fun hne => absurd rfl hne, fun _ => rowRel_updA hrel c _⟩
          · rw [alookup_dictRel_ne h hk]
            exact dictRel_updA h _ ⟨fun _ => rfl, fun he => absurd he hk⟩

theorem procItem_cellIs {ds col c : String} {pd pd' : PDict} {i : RawItem}
    {v : Option Rat} (hC : cellIs pd ds col v) (hw : ¬ writesTo c i col ds)
    (hok : procItem c pd i = .ok pd') : cellIs pd' ds col v := by
  unfold procItem at hok
  cases hds : dateStrOfItem i with
  | error e => rw [hds] at hok; cases hok
  | ok o =>
      rw [hds] at hok
      cases o with
      | none => cases hok; exact hC
      | some k =>
          cases hok
          unfold cellIs dictCell at hC ⊢
          by_cases hk : k = ds
          · subst hk
            have hc : c ≠ col := fun hcc => hw ⟨hcc, hds⟩
            rw [alookup_updA, if_pos rfl, Option.getD_some, alookup_updA, if_neg hc]
            exact hC
          · rw [alookup_updA, if_neg hk]
            exact hC

theorem foldlM_ok_preserves_mem {ε α β : Type} {P : β → Prop} (f : β → α → Except ε β) :
    ∀ (l : List α), (∀ b, ∀ a ∈ l, ∀ b', P b → f b a = .ok b' → P b') →
      ∀ b b', l.foldlM f b = .ok b' → P b → P b' := by
  intro l
  induction l with
  | nil =>
      intro _ b b' h hb
      simp only [List.foldlM_nil] at h
      cases h
      exact hb
  | cons a t ih =>
      intro hf b b' h hb
      simp only [List.foldlM_cons] at h
      cases hfa : f b a with
      | error e => rw [hfa] at h; simp [Bind.bind, Except.bind] at h
      | ok b₁ =>
          rw [hfa] at h
          simp only [Bind.bind, Except.bind] at h
          exact ih (fun b a' ha' b' hb' hf' => hf b a' (List.mem_cons_of_mem _ ha') b' hb' hf')
            b₁ b' h (hf b a (List.mem_cons_self _ _) b₁ hb hfa)

theorem foldlM_pair_rel {ε α β : Type} {R : β → β → Prop} (f : β → α → Except ε β) :
    ∀ (l : List α),
      (∀ b₁ b₂, ∀ a ∈ l, R b₁ b₂ →
        (∃ e, f b₁ a = .error e ∧ f b₂ a = .error e) ∨
        (∃ b₁' b₂', f b₁ a = .ok b₁' ∧ f b₂ a = .ok b₂' ∧ R b₁' b₂')) →
      ∀ b₁ b₂, R b₁ b₂ →
        (∃ e, l.foldlM f b₁ = .error e ∧ l.foldlM f b₂ = .error e) ∨
        (∃ b₁' b₂', l.foldlM f b₁ = .ok b₁' ∧ l.foldlM f b₂ = .ok b₂' ∧ R b₁' b₂') := by
  intro l
  induction l with
  | nil =>
      intro _ b₁ b₂ hR
      exact Or.inr ⟨b₁, b₂, rfl, rfl, hR⟩
  | cons a t ih =>
      intro hstep b₁ b₂ hR
      rcases hstep b₁ b₂ a (List.mem_cons_self _ _) hR with ⟨e, he₁, he₂⟩ |
        ⟨c₁, c₂, hc₁, hc₂, hRc⟩
      · refine Or.inl ⟨e, ?_, ?_⟩ <;>
          simp only [List.foldlM_cons, he₁, he₂, Bind.bind, Except.bind]
      · have ih' := ih (fun x y a' ha' hxy => hstep x y a' (List.mem_cons_of_mem _ ha') hxy)
          c₁ c₂ hRc
        rcases ih' with ⟨e, he₁, he₂⟩ | ⟨d₁', d₂', hd₁, hd₂, hRd⟩
        · refine Or.inl ⟨e, ?_, ?_⟩
          · simp only [List.foldlM_cons, hc₁, Bind.bind, Except.bind, he₁]
          · simp only [List.foldlM_cons, hc₂, Bind.bind, Except.bind, he₂]
        · refine Or.inr ⟨d₁', d₂', ?_, ?_, hRd⟩
          · simp only [List.foldlM_cons, hc₁, Bind.bind, Except.bind, hd₁]
          · simp only [List.foldlM_cons, hc₂, Bind.bind, Except.bind, hd₂]

theorem procSeries_rel {ds col : String} {d₁ d₂ : PDict} (s : RawSeries)
    (h : DictRel ds col d₁ d₂) :
    (∃ e, procSeries d₁ s = .error e ∧ procSeries d₂ s = .error e) ∨
    (∃ d₁' d₂', procSeries d₁ s = .ok d₁' ∧ procSeries d₂ s = .ok d₂' ∧
      DictRel ds col d₁' d₂') :=
  foldlM_pair_rel _ s.data (fun _ _ a _ hR => procItem_rel a hR) d₁ d₂ h

theorem procSeries_cellIs {ds col : String} {v : Option Rat} {pd pd' : PDict}
    {s : RawSeries}
    (hw : ∀ i ∈ s.data, ¬ writesTo (seriesColumn s.seriesID) i col ds)
    (hok : procSeries pd s = .ok pd') (hC : cellIs pd ds col v) :
    cellIs pd' ds col v :=
  foldlM_ok_preserves_mem _ s.data
    (fun _ a ha _ hb hf => procItem_cellIs hb (hw a ha) hf) pd pd' hok hC

theorem alookup_mem {α : Type} {l : List (String × α)} {k : String} {v : α}
    (h : alookup l k = some v) : (k, v) ∈ l := by
  induction l with
  | nil => cases h
  | cons kv tl ih =>
      obtain ⟨k₀, v₀⟩ := kv
      by_cases hk : k₀ = k
      · subst hk
        simp only [alookup, if_pos rfl] at h
        cases h
        exact List.mem_cons_self _ _
      · simp only [alookup, if_neg hk] at h
        exact List.mem_cons_of_mem _ (ih h)

theorem forall₂_mem_left {α β : Type} {R : α → β → Prop} {l₁ : List α} {l₂ : List β}
    (h : List.Forall₂ R l₁ l₂) {a : α} (ha : a ∈ l₁) : ∃ b ∈ l₂, R a b := by
  induction h with
  | nil => cases ha
  | @cons x y t₁ t₂ hp htl ih =>
      rcases List.mem_cons.mp ha with rfl | ha'
      · exact ⟨y, List.mem_cons_self _ _, hp⟩
      · obtain ⟨b, hb, hR⟩ := ih ha'
        exact ⟨b, List.mem_cons_of_mem _ hb, hR⟩

theorem mapM_parseEntry_rel {ds col : String} {D : Date} (hD : parseDate ds = some D) :
    ∀ {pd₁ pd₂ : PDict}, DictRel ds col pd₁ pd₂ →
      ∀ {rows₁ : List (Date × Row)}, pd₁.mapM parseEntry = .ok rows₁ →
      ∃ rows₂, pd₂.mapM parseEntry = .ok rows₂ ∧
        List.Forall₂ (TRowRel D col) rows₁ rows₂ := by
  intro pd₁ pd₂ h
  induction h with
  | nil =>
      intro rows₁ h1
      simp only [List.mapM_nil, pure, Except.pure] at h1
      cases h1
      exact ⟨[], rfl, List.Forall₂.nil⟩
  | @cons a b l₁ l₂ hp htl ih =>
      intro rows₁ h1
      simp only [List.mapM_cons, pure, Except.pure, Bind.bind, Except.bind] at h1 ⊢
      cases hpa : parseEntry a with
      | error e => rw [hpa] at h1; cases h1
      | ok ra =>
          rw [hpa] at h1
          cases hl : l₁.mapM parseEntry with
          | error e => rw [hl] at h1; cases h1
          | ok ras =>
              rw [hl] at h1
              cases h1
              obtain ⟨rest₂, hrest, hrel⟩ := ih hl
              obtain ⟨hk, hv, hds'⟩ := hp
              unfold parseEntry at hpa
              cases hpd : parseDate a.1 with
              | none => rw [hpd] at hpa; cases hpa
              | some da =>
                  rw [hpd] at hpa
                  cases hpa
                  have hpb : parseEntry b = Except.ok (da, b.2) := by
                    unfold parseEntry
                    rw [← hk, hpd]
                  rw [hpb, hrest]
                  refine ⟨(da, b.2) :: rest₂, rfl, List.Forall₂.cons ⟨rfl, ?_, ?_⟩ hrel⟩
                  · intro hne
                    have hkne : a.1 ≠ ds := by
                      intro he
                      rw [he, hD] at hpd
                      cases hpd
                      exact hne rfl
                    exact hv hkne
                  · intro _
                    by_cases he : a.1 = ds
                    · exact hds' he
                    · rw [hv he]
                      exact rowRel_refl col b.2

theorem rowFor_of_mem_nodup {rows : List (Date × Row)} {d : Date} {r : Row}
    (hmem : (d, r) ∈ rows) (hnd : (datesOf rows).Nodup) : rowFor rows d = some r := by
  induction rows with
  | nil => cases hmem
  | cons hd tl ih =>
      simp only [datesOf, List.map_cons, List.nodup_cons] at hnd
      rcases List.mem_cons.mp hmem with heq | hmem'
      · subst heq
        unfold rowFor
        rw [List.filter_cons_of_pos (by simp)]
        have hnil : tl.filter (fun x => decide (x.1 = d)) = [] := by
          rw [List.filter_eq_nil_iff]
          intro a ha hd'
          simp only [decide_eq_true_eq] at hd'
          exact hnd.1 (hd' ▸ List.mem_map_of_mem (fun r => r.1) ha)
        rw [hnil]
        rfl
      · unfold rowFor
        by_cases hhd : hd.1 = d
        · exfalso
          apply hnd.1
          rw [hhd]
          exact List.mem_map_of_mem (fun r => r.1) hmem'
        · rw [List.filter_cons_of_neg (by simpa using hhd)]
          exact ih hmem' hnd.2

theorem datesOf_eq_of_forall₂ {D : Date} {col : String}
    {l₁ l₂ : List (Date × Row)} (h : List.Forall₂ (TRowRel D col) l₁ l₂) :
    datesOf l₁ = datesOf l₂ := by
  induction h with
  | nil => rfl
  | @cons a b t₁ t₂ hp htl ih =>
      simp only [datesOf, List.map_cons] at ih ⊢
      rw [ih, hp.1]

theorem forall₂_filter_dates {D : Date} {col : String} {d : Date}
    {l₁ l₂ : List (Date × Row)} (h : List.Forall₂ (TRowRel D col) l₁ l₂) :
    List.Forall₂ (TRowRel D col) (l₁.filter (fun r => decide (r.1 = d)))
      (l₂.filter (fun r => decide (r.1 = d))) := by
  induction h with
  | nil => exact List.Forall₂.nil
  | @cons a b t₁ t₂ hp htl ih =>
      by_cases hd : a.1 = d
      · rw [List.filter_cons_of_pos (by simpa using hd),
            List.filter_cons_of_pos (by simpa using (hp.1 ▸ hd))]
        exact List.Forall₂.cons hp ih
      · rw [List.filter_cons_of_neg (by simpa using hd),
            List.filter_cons_of_neg (by simpa using (hp.1 ▸ hd))]
        exact ih

theorem forall₂_getLast? {α β : Type} {R : α → β → Prop} {l₁ : List α} {l₂ : List β}
    (h : List.Forall₂ R l₁ l₂) :
    (l₁.getLast? = none ∧ l₂.getLast? = none) ∨
    ∃ a b, l₁.getLast? = some a ∧ l₂.getLast? = some b ∧ R a b := by
  induction h with
  | nil => exact Or.inl ⟨rfl, rfl⟩
  | @cons a b t₁ t₂ hp htl ih =>
      rcases ih with ⟨h1, h2⟩ | ⟨x, y, h1, h2, hR⟩
      · rw [List.getLast?_eq_none_iff] at h1 h2
        subst h1; subst h2
        exact Or.inr ⟨a, b, rfl, rfl, hp⟩
      · have ht₁ : t₁ ≠ [] := by
          intro he
          rw [he] at h1
          cases h1
        have ht₂ : t₂ ≠ [] := by
          intro he
          rw [he] at h2
          cases h2
        refine Or.inr ⟨x, y, ?_, ?_, hR⟩
        · rw [show a :: t₁ = [a] ++ t₁ from rfl, List.getLast?_append_of_ne_nil _ ht₁]
          exact h1
        · rw [show b :: t₂ = [b] ++ t₂ from rfl, List.getLast?_append_of_ne_nil _ ht₂]
          exact h2

theorem rowFor_rel {D : Date} {col : String} {d : Date}
    {l₁ l₂ : List (Date × Row)} (h : List.Forall₂ (TRowRel D col) l₁ l₂) :
    (rowFor l₁ d = none ∧ rowFor l₂ d = none) ∨
    ∃ r₁ r₂, rowFor l₁ d = some r₁ ∧ rowFor l₂ d = some r₂ ∧
      (d ≠ D → r₁ = r₂) ∧ (d = D → RowRel col r₁ r₂) := by
  have hf := forall₂_filter_dates (d := d) h
  rcases forall₂_getLast? hf with ⟨h1, h2⟩ | ⟨a, b, h1, h2, hR⟩
  · left
    unfold rowFor
    rw [h1, h2]
    exact ⟨rfl, rfl⟩
  · right
    have hamem := List.mem_of_getLast?_eq_some h1
    have had : a.1 = d := by
      have := List.mem_filter.mp hamem
      simpa using this.2
    obtain ⟨hR1, hR2, hR3⟩ := hR
    refine ⟨a.2, b.2, ?_, ?_, ?_, ?_⟩
    · unfold rowFor
      rw [h1]
      rfl
    · unfold rowFor
      rw [h2]
      rfl
    · intro hne
      rw [hR2 (had ▸ hne)]
    · intro heq
      exact hR3 (had ▸ heq)

theorem cellVal_eq_of_rowRel {col : String} {r₁ r₂ : Row} (h : RowRel col r₁ r₂)
    {c : String} (hc : c ≠ col) : cellVal r₁ c = cellVal r₂ c := by
  unfold cellVal
  rw [alookup_rowRel h hc]

/-- C8: an observation whose value does not parse as a float is stored as a
null cell instead of failing, and every other observation is still
processed: replacing just that value by a parseable one yields a successful
run with the same table except at that one cell.  (`b` is the last writer
of its cell; later writers would overwrite it by dict semantics.) -/
theorem C8_bad_value_stored_as_null :
    ∀ (rs₁ rs₂ : List RawSeries) (sid : String) (pre post : List RawItem)
      (b : RawItem) (v' : String) (q : Rat) (ds : String) (D : Date) (t : Table),
      dateStrOfItem b = .ok (some ds) →
      pyFloat? b.value = none →
      pyFloat? v' = some q →
      parseDate ds = some D →
      (∀ i ∈ post, ¬ writesTo (seriesColumn sid) i (seriesColumn sid) ds) →
      (∀ s ∈ rs₂, ∀ i ∈ s.data,
        ¬ writesTo (seriesColumn s.seriesID) i (seriesColumn sid) ds) →
      process_data (rs₁ ++ ⟨sid, pre ++ b :: post⟩ :: rs₂) = .ok t →
      t.cell D (seriesColumn sid) = none ∧
      ∃ t', process_data (rs₁ ++ ⟨sid, pre ++ ⟨b.year, b.period, v'⟩ :: post⟩ :: rs₂) =
          .ok t' ∧
        t'.cell D (seriesColumn sid) = some q ∧
        ∀ (d : Date) (c : String), ¬(d = D ∧ c = seriesColumn sid) →
          t'.cell d c = t.cell d c := by
  intro rs₁ rs₂ sid pre post b v' q ds D t hdsb hbad hq' hD hwpost hwrs₂ h
  unfold process_data at h
  split at h
  · cases h
  · rename_i pd₁ hbuild0
    split at h
    · cases h
    · rename_i rows₁ hmap
      cases h
      -- decompose the successful dictionary build of the original run
      have hbuild := hbuild0
      unfold buildDict at hbuild
      rw [List.foldlM_append] at hbuild
      obtain ⟨acc, hacc⟩ : ∃ a, rs₁.foldlM procSeries [] = Except.ok a := by
        cases h' : rs₁.foldlM procSeries [] with
        | error e => rw [h'] at hbuild; simp [Bind.bind, Except.bind] at hbuild
        | ok a => exact ⟨a, rfl⟩
      rw [hacc] at hbuild
      simp only [Bind.bind, Except.bind] at hbuild
      rw [List.foldlM_cons] at hbuild
      obtain ⟨pdS₁, hps⟩ : ∃ p, procSeries acc ⟨sid, pre ++ b :: post⟩ = Except.ok p := by
        cases h' : procSeries acc ⟨sid, pre ++ b :: post⟩ with
        | error e => rw [h'] at hbuild; simp [Bind.bind, Except.bind] at hbuild
        | ok p => exact ⟨p, rfl⟩
      rw [hps] at hbuild
      simp only [Bind.bind, Except.bind] at hbuild
      -- hbuild : rs₂.foldlM procSeries pdS₁ = .ok pd₁
      have hpsd := hps
      unfold procSeries at hpsd
      dsimp only at hpsd
      rw [List.foldlM_append] at hpsd
      obtain ⟨d0, hpre⟩ : ∃ p, pre.foldlM (procItem (seriesColumn sid)) acc =
          Except.ok p := by
        cases h' : pre.foldlM (procItem (seriesColumn sid)) acc with
        | error e => rw [h'] at hpsd; simp [Bind.bind, Except.bind] at hpsd
        | ok p => exact ⟨p, rfl⟩
      rw [hpre] at hpsd
      simp only [Bind.bind, Except.bind] at hpsd
      rw [List.foldlM_cons] at hpsd
      have hpib : procItem (seriesColumn sid) d0 b =
          .ok (updA ds (updA (seriesColumn sid) none ((alookup d0 ds).getD [])) d0) := by
        unfold procItem
        rw [hdsb, hbad]
      rw [hpib] at hpsd
      simp only [Bind.bind, Except.bind] at hpsd
      -- hpsd : post.foldlM (procItem (seriesColumn sid)) (updA ds ...) = .ok pdS₁
      -- the modified run up to the same point
      have hdsb' : dateStrOfItem ⟨b.year, b.period, v'⟩ = .ok (some ds) := hdsb
      have hpib' : procItem (seriesColumn sid) d0 ⟨b.year, b.period, v'⟩ =
          .ok (updA ds (updA (seriesColumn sid) (some q) ((alookup d0 ds).getD [])) d0) := by
        unfold procItem
        rw [hdsb']
        show Except.ok (updA ds (updA (seriesColumn sid) (pyFloat? v')
          ((alookup d0 ds).getD [])) d0) = _
        rw [hq']
      -- the two dictionaries after the bad item are related
      have hrel0 : DictRel ds (seriesColumn sid)
          (updA ds (updA (seriesColumn sid) none ((alookup d0 ds).getD [])) d0)
          (updA ds (updA (seriesColumn sid) (some q) ((alookup d0 ds).getD [])) d0) :=
        dictRel_updA (dictRel_refl ds (seriesColumn sid) d0) ds
          ⟨fun hne => absurd rfl hne,
           fun _ => rowRel_updA_col (rowRel_refl _ _) none (some q)⟩
      have hcell1 : cellIs
          (updA ds (updA (seriesColumn sid) none ((alookup d0 ds).getD [])) d0)
          ds (seriesColumn sid) none := by
        unfold cellIs dictCell
        rw [alookup_updA, if_pos rfl, Option.getD_some, alookup_updA, if_pos rfl]
      have hcell2 : cellIs
          (updA ds (updA (seriesColumn sid) (some q) ((alookup d0 ds).getD [])) d0)
          ds (seriesColumn sid) (some q) := by
        unfold cellIs dictCell
        rw [alookup_updA, if_pos rfl, Option.getD_some, alookup_updA, if_pos rfl]
      -- fold the rest of the series in both runs
      rcases foldlM_pair_rel (procItem (seriesColumn sid)) post
          (fun _ _ a _ hR => procItem_rel a hR) _ _ hrel0 with
        ⟨e, he₁, _⟩ | ⟨pdS₁', pdS₂, hp1, hp2, hrelS⟩
      · rw [he₁] at hpsd; cases hpsd
      have hps1 : pdS₁ = pdS₁' := Except.ok.inj (hpsd.symm.trans hp1)
      subst hps1
      have hcellS1 : cellIs pdS₁ ds (seriesColumn sid) none :=
        foldlM_ok_preserves_mem _ post
          (fun _ a ha _ hb hf => procItem_cellIs hb (hwpost a ha) hf) _ _ hp1 hcell1
      have hcellS2 : cellIs pdS₂ ds (seriesColumn sid) (some q) :=
        foldlM_ok_preserves_mem _ post
          (fun _ a ha _ hb hf => procItem_cellIs hb (hwpost a ha) hf) _ _ hp2 hcell2
      -- fold the remaining series in both runs
      rcases foldlM_pair_rel procSeries rs₂
          (fun _ _ s₀ _ hR => procSeries_rel s₀ hR) _ _ hrelS with
        ⟨e, he₁, _⟩ | ⟨pd₁', pd₂, hq1, hq2, hrelF⟩
      · rw [he₁] at hbuild; cases hbuild
      have hpd1 : pd₁ = pd₁' := Except.ok.inj (hbuild.symm.trans hq1)
      subst hpd1
      have hcellF1 : cellIs pd₁ ds (seriesColumn sid) none :=
        foldlM_ok_preserves_mem procSeries rs₂
          (fun _ s₀ hs _ hb hf => procSeries_cellIs (hwrs₂ s₀ hs) hf hb) _ _ hq1 hcellS1
      have hcellF2 : cellIs pd₂ ds (seriesColumn sid) (some q) :=
        foldlM_ok_preserves_mem procSeries rs₂
          (fun _ s₀ hs _ hb hf => procSeries_cellIs (hwrs₂ s₀ hs) hf hb) _ _ hq2 hcellS2
      -- the modified run's dictionary build succeeds with pd₂
      have hbuild' : buildDict (rs₁ ++ ⟨sid, pre ++ ⟨b.year, b.period, v'⟩ :: post⟩ :: rs₂) =
          .ok pd₂ := by
        unfold buildDict
        rw [List.foldlM_append, hacc]
        simp only [Bind.bind, Except.bind]
        rw [List.foldlM_cons]
        have hps' : procSeries acc ⟨sid, pre ++ ⟨b.year, b.period, v'⟩ :: post⟩ = .ok pdS₂ := by
          unfold procSeries
          dsimp only
          rw [List.foldlM_append, hpre]
          simp only [Bind.bind, Except.bind]
          rw [List.foldlM_cons, hpib']
          simp only [Bind.bind, Except.bind]
          exact hp2
        rw [hps']
        simp only [Bind.bind, Except.bind]
        exact hq2
      -- the parse stage of both runs
      obtain ⟨rows₂, hmap₂, hrows⟩ := mapM_parseEntry_rel hD hrelF hmap
      have hproc' : process_data (rs₁ ++ ⟨sid, pre ++ ⟨b.year, b.period, v'⟩ :: post⟩ :: rs₂) =
          .ok { cols := dictCols pd₂, rows := sortRows rows₂ } := by
        unfold process_data
        rw [hbuild']
        dsimp only
        rw [hmap₂]
      -- date uniqueness on both sides
      have hknd : (pd₁.map Prod.fst).Nodup := buildDict_keys_nodup _ _ hbuild0
      have hnd₁ : (datesOf rows₁).Nodup :=
        datesOf_nodup_of_keys_nodup (mapM_parseEntry_ok hmap) hknd
      have hdeq : datesOf rows₁ = datesOf rows₂ := datesOf_eq_of_forall₂ hrows
      have hnd₂ : (datesOf rows₂).Nodup := hdeq ▸ hnd₁
      -- locate the bad cell's row on both sides
      have hrow1 : ∃ rowD, alookup pd₁ ds = some rowD ∧ alookup rowD (seriesColumn sid) =
          some none := by
        unfold cellIs dictCell at hcellF1
        cases hl : alookup pd₁ ds with
        | none => rw [hl] at hcellF1; cases hcellF1
        | some rowD =>
            rw [hl] at hcellF1
            exact ⟨rowD, rfl, by simpa using hcellF1⟩
      have hrow2 : ∃ rowD, alookup pd₂ ds = some rowD ∧ alookup rowD (seriesColumn sid) =
          some (some q) := by
        unfold cellIs dictCell at hcellF2
        cases hl : alookup pd₂ ds with
        | none => rw [hl] at hcellF2; cases hcellF2
        | some rowD =>
            rw [hl] at hcellF2
            exact ⟨rowD, rfl, by simpa using hcellF2⟩
      obtain ⟨rowD₁, hl₁, hv₁⟩ := hrow1
      obtain ⟨rowD₂, hl₂, hv₂⟩ := hrow2
      have hmem₁ : (D, rowD₁) ∈ rows₁ := by
        obtain ⟨rr, hrr, hprr, hvrr⟩ := forall₂_mem_left (mapM_parseEntry_ok hmap)
          (alookup_mem hl₁)
        have : rr.1 = D := by
          rw [hD] at hprr
          exact (Option.some.inj hprr).symm
        have hrr2 : rr = (D, rowD₁) := by
          obtain ⟨r1, r2⟩ := rr
          simp only at this hvrr
          rw [this, ← hvrr]
        exact hrr2 ▸ hrr
      have hmem₂ : (D, rowD₂) ∈ rows₂ := by
        obtain ⟨rr, hrr, hprr, hvrr⟩ := forall₂_mem_left (mapM_parseEntry_ok hmap₂)
          (alookup_mem hl₂)
        have : rr.1 = D := by
          rw [hD] at hprr
          exact (Option.some.inj hprr).symm
        have hrr2 : rr = (D, rowD₂) := by
          obtain ⟨r1, r2⟩ := rr
          simp only at this hvrr
          rw [this, ← hvrr]
        exact hrr2 ▸ hrr
      -- read cells through the sorted tables
      have hsort₁ : ∀ d : Date, rowFor (sortRows rows₁) d = rowFor rows₁ d :=
        fun d => (rowFor_perm (sortRows_perm rows₁).symm hnd₁ d).symm
      have hsort₂ : ∀ d : Date, rowFor (sortRows rows₂) d = rowFor rows₂ d :=
        fun d => (rowFor_perm (sortRows_perm rows₂).symm hnd₂ d).symm
      refine ⟨?_, ⟨{ cols := dictCols pd₂, rows := sortRows rows₂ }, hproc', ?_, ?_⟩⟩
      · show Table.cell _ D (seriesColumn sid) = none
        unfold Table.cell
        dsimp only
        rw [hsort₁ D, rowFor_of_mem_nodup hmem₁ hnd₁]
        show cellVal rowD₁ (seriesColumn sid) = none
        unfold cellVal
        rw [hv₁]
        rfl
      · show Table.cell _ D (seriesColumn sid) = some q
        unfold Table.cell
        dsimp only
        rw [hsort₂ D, rowFor_of_mem_nodup hmem₂ hnd₂]
        show cellVal rowD₂ (seriesColumn sid) = some q
        unfold cellVal
        rw [hv₂]
        rfl
      · intro d c hnc
        show Table.cell _ d c = Table.cell _ d c
        unfold Table.cell
        dsimp only
        rw [hsort₁ d, hsort₂ d]
        rcases rowFor_rel (d := d) hrows with ⟨h1, h2⟩ | ⟨r₁, r₂, h1, h2, hne, heq⟩
        · rw [h1, h2]
        · rw [h1, h2]
          by_cases hdD : d = D
          · subst hdD
            have hcc : c ≠ seriesColumn sid := fun hcc => hnc ⟨rfl, hcc⟩
            exact (cellVal_eq_of_rowRel (heq rfl) hcc).symm
          · rw [hne hdD]

theorem C8_bad_value_stored_as_null_witness :
    Table.cell { cols := ["Imports_All_Commodities_U"],
                 rows := [(⟨2023, 1, 1⟩, [("Imports_All_Commodities_U", none)])] }
      ⟨2023, 1, 1⟩ (seriesColumn "EIUIR") = none :=
  (C8_bad_value_stored_as_null [] [] "EIUIR" [] [] ⟨"2023", "M01", "abc"⟩ "2.5"
    (mkRat 25 10) "2023-01-01" ⟨2023, 1, 1⟩
    { cols := ["Imports_All_Commodities_U"],
      rows := [(⟨2023, 1, 1⟩, [("Imports_All_Commodities_U", none)])] }
    (by decide) (by decide) (by decide) (by decide)
    (by intro i hi; cases hi) (by intro s hs; cases hs) (by decide)).1

end CollectData
